import Mathlib

/-!
Verification of the nanocortex decision-pipeline core.

The development shallowly embeds the Python source of the repository:

* Python strings are modelled as `List Char` (`Str`); Python floats as `ℚ`
  (the arithmetic of the program is elementary, so exact rationals model it);
  Python dicts and Counters as insertion-ordered association lists, which is
  the observable semantics of CPython dicts.
* External collaborators (the `re` module, the two LLM HTTP calls, `math.log`)
  are passed in as function parameters; the audit sink and the uuid/timestamp
  field generators are side channels that no claim observes and are omitted
  from the embedded records.
* Fallible code returns `Except Unit`.

Embedded modules: `nanocortex/reasoning/policy.py`, `nanocortex/reasoning/agent.py`,
`nanocortex/learning/feedback.py`, `nanocortex/knowledge/retriever.py`,
with the record types of `nanocortex/models/domain.py`.
-/

namespace Nanocortex

/-- Python strings are modelled as lists of characters. -/
abbrev Str := List Char

/-- The apostrophe character, used inside generated explanation strings. -/
def quoteChar : Char := Char.ofNat 39

/-- Whitespace as recognised by Python `str.split()` / `str.strip()`. -/
def pyWs (c : Char) : Bool :=
  c = ' ' || c = '\t' || c = '\n' || c = '\r' || c = '\x0b' || c = '\x0c'

/-- Python `str.strip()`: drop whitespace from both ends. -/
def trim (l : Str) : Str :=
  ((l.dropWhile pyWs).reverse.dropWhile pyWs).reverse

/-- Python `str.lower()` (per-character lowering). -/
def lower (l : Str) : Str := l.map Char.toLower

/-- Helper for Python `str.split()`: accumulate the current token (reversed). -/
def toksGo : Str → Str → List Str
  | acc, [] => if acc = [] then [] else [acc.reverse]
  | acc, c :: rest =>
    if pyWs c then
      if acc = [] then toksGo [] rest else acc.reverse :: toksGo [] rest
    else
      toksGo (c :: acc) rest

/-- Python `str.split()` with no argument: split on runs of whitespace,
discarding empty tokens. -/
def toks (l : Str) : List Str := toksGo [] l

/-- Python `str.replace(old, new)` for a single-character pattern
(used for `text.replace("\n", " ")`). -/
def replaceChar (a b : Char) (l : Str) : Str :=
  l.map fun c => if c = a then b else c

/-- Fuel-driven worker for `splitSeq`; the fuel is an upper bound on the input
length, so the zero-fuel branch is unreachable.  Written with structural fuel
recursion so that it evaluates by `decide`/`rfl`. -/
def splitSeqGo (sep : Str) : ℕ → Str → Str → List Str
  | 0, acc, l => [acc.reverse ++ l]
  | fuel + 1, acc, l =>
    match l with
    | [] => [acc.reverse]
    | c :: rest =>
      if sep ≠ [] ∧ (c :: rest).take sep.length = sep then
        acc.reverse :: splitSeqGo sep fuel [] ((c :: rest).drop sep.length)
      else
        splitSeqGo sep fuel (c :: acc) rest

/-- Python `str.split(sep)` for a non-empty separator string:
left-to-right, non-overlapping occurrences. -/
def splitSeq (sep l : Str) : List Str := splitSeqGo sep (l.length + 1) [] l

/-- Python `str.replace(old, new)` for a non-empty `old`:
equivalently `new.join(s.split(old))`. -/
def replaceSeq (old new l : Str) : Str :=
  List.intercalate new (splitSeq old l)

/-- Python `needle in hay` on strings: contiguous-substring test. -/
def hasSub (needle hay : Str) : Bool :=
  (List.range (hay.length + 1)).any fun i =>
    (hay.drop i).take needle.length = needle

/-- Decimal digit string to a natural number; `none` unless non-empty and
all digits. -/
def digitsVal (l : Str) : Option ℕ :=
  if l = [] then none
  else if l.all Char.isDigit then
    some (l.foldl (fun a c => a * 10 + (c.toNat - 48)) 0)
  else none

/-- Model of Python `float(s)` restricted to plain decimal literals
(optional sign, digits, optional fractional part).  Returns `none` where
Python raises `ValueError`.  Exotic accepted forms (exponents, inf, nan)
are outside the shapes this program feeds it. -/
def parseFloat (l : Str) : Option ℚ :=
  let signed : ℚ × Str :=
    match l with
    | '-' :: rest => (-1, rest)
    | '+' :: rest => (1, rest)
    | _ => (1, l)
  let sign := signed.1
  let body := signed.2
  match body.splitOn '.' with
  | [ip] => (digitsVal ip).map fun n => sign * n
  | [ip, fp] =>
    if ip = [] ∧ fp = [] then none
    else if (ip.all Char.isDigit) ∧ (fp.all Char.isDigit) then
      let ipv : ℕ := ((digitsVal ip).getD 0)
      let fpv : ℕ := ((digitsVal fp).getD 0)
      some (sign * ((ipv : ℚ) + (fpv : ℚ) / ((10 : ℚ) ^ fp.length)))
    else none
  | _ => none

/-- Python `round(x, 4)` modelled on exact rationals with round-half-to-even. -/
def pyRound4 (x : ℚ) : ℚ :=
  let y := x * 10000
  let fl : ℤ := ⌊y⌋
  let r := y - (fl : ℚ)
  let n : ℤ :=
    if r < 1 / 2 then fl
    else if 1 / 2 < r then fl + 1
    else if fl % 2 = 0 then fl else fl + 1
  (n : ℚ) / 10000

/-- Decimal representation of a natural number (for embedded f-strings). -/
def natStr (n : ℕ) : Str := (Nat.repr n).data

/-- Lookup in an insertion-ordered assoc list modelling a Python dict:
`d.get(k)`. -/
def dget? {α : Type} (d : List (Str × α)) (k : Str) : Option α :=
  (d.find? fun p => p.1 = k).map Prod.snd

/-- Python `d[k] = v` on an insertion-ordered assoc list: an existing key keeps
its position, a new key is appended. -/
def dset {α : Type} (d : List (Str × α)) (k : Str) (v : α) : List (Str × α) :=
  if d.any (fun p => p.1 = k) then
    d.map fun p => if p.1 = k then (k, v) else p
  else d ++ [(k, v)]

/-- Python `Counter`/dict lookup with default `0`. -/
def cget (d : List (Str × ℕ)) (k : Str) : ℕ :=
  ((d.find? fun p => p.1 = k).map Prod.snd).getD 0

/-- Python `counter[k] += 1`. -/
def cinc (d : List (Str × ℕ)) (k : Str) : List (Str × ℕ) :=
  if d.any (fun p => p.1 = k) then
    d.map fun p => if p.1 = k then (p.1, p.2 + 1) else p
  else d ++ [(k, 1)]

/-! ## Domain model (`nanocortex/models/domain.py`)

The pydantic `default_factory` fields for uuids (`decision_id`, …) and
timestamps (`created_at`, …) draw on external entropy/clocks; identifiers are
threaded explicitly where the program reads them back, timestamp fields are
omitted (no claim observes them). -/

inductive PolicyVerdict
  | ALLOW
  | DENY
  | NEEDS_APPROVAL
deriving DecidableEq, Repr

structure BoundingBox where
  x : ℚ
  y : ℚ
  width : ℚ
  height : ℚ
  page : ℤ
deriving DecidableEq, Repr

structure Citation where
  doc_id : Str
  page : ℤ
  bbox : Option BoundingBox
  image_id : Option Str
  snippet : Str
deriving DecidableEq, Repr

structure RetrievalResult where
  chunk_id : Str
  text : Str
  score : ℚ
  citations : List Citation
  modality : Str
deriving DecidableEq, Repr

structure RetrievalResponse where
  query : Str
  results : List RetrievalResult
  strategy : Str
deriving DecidableEq, Repr

structure PolicyRule where
  rule_id : Str
  name : Str
  description : Str
  condition : Str
  verdict : PolicyVerdict
deriving DecidableEq, Repr

structure PolicyEvaluation where
  rule : PolicyRule
  matched : Bool
  verdict : PolicyVerdict
  explanation : Str
deriving DecidableEq, Repr

inductive AgentState
  | RUNNING
  | PAUSED
  | WAITING_APPROVAL
  | COMPLETED
  | FAILED
deriving DecidableEq, Repr

structure Decision where
  decision_id : Str
  query : Str
  answer : Str
  evidence : List RetrievalResult
  policy_evaluations : List PolicyEvaluation
  agent_state : AgentState
  model_used : Str
  auditor_model : Str
deriving DecidableEq, Repr

inductive OutcomeRating
  | CORRECT
  | PARTIALLY_CORRECT
  | INCORRECT
  | HALLUCINATION
deriving DecidableEq, Repr

/-- The `.value` string of an `OutcomeRating`. -/
def ratingValue : OutcomeRating → Str
  | .CORRECT => ("correct").data
  | .PARTIALLY_CORRECT => ("partially_correct").data
  | .INCORRECT => ("incorrect").data
  | .HALLUCINATION => ("hallucination").data

structure FeedbackRecord where
  feedback_id : Str
  decision_id : Str
  rating : OutcomeRating
  corrected_answer : Str
  explanation : Str
deriving DecidableEq, Repr

/-- A value of the `parameters` dict of a `LearningAdjustment`
(the program stores numbers and strings there). -/
inductive PVal
  | num (q : ℚ)
  | strv (s : Str)
deriving DecidableEq, Repr

/-- `LearningAdjustment` without its uuid/timestamp default-factory fields. -/
structure LearningAdjustment where
  trigger_feedback_id : Str
  adjustment_type : Str
  description : Str
  parameters : List (Str × PVal)
deriving DecidableEq, Repr

/-! ## Policy engine (`nanocortex/reasoning/policy.py`)

`PolicyEngine._check_condition` calls `re.search(pattern, query, re.IGNORECASE)`
with no exception handling around it; the `re` module is external, so it is
passed in as a parameter `research : Str → Str → Except Unit Bool` returning
the truth value of `bool(re.search(...))` or the `re.error` CPython raises on a
malformed pattern. -/

namespace PolicyEngine

/-- Embedding of `PolicyEngine._check_condition`. -/
def check_condition (research : Str → Str → Except Unit Bool)
    (rule : PolicyRule) (query : Str) (evidence : RetrievalResponse)
    (context : List (Str × Str)) : Except Unit Bool :=
  let cond := trim rule.condition
  if cond = ("no_evidence").data then
    .ok (evidence.results.length = 0)
  else if cond.take 9 = ("contains:").data then
    let pattern := trim (cond.drop 9)
    research pattern query
  else if cond.take 10 = ("min_score:").data then
    match parseFloat (trim (cond.drop 10)) with
    | none => .ok false
    | some threshold =>
      let top_score : ℚ :=
        match evidence.results with
        | [] => 0
        | r :: _ => r.score
      .ok (top_score < threshold)
  else if cond.take 8 = ("context:").data then
    let kv := trim (cond.drop 8)
    if '=' ∈ kv then
      let key := kv.takeWhile (· ≠ '=')
      let value := kv.drop (key.length + 1)
      .ok ((dget? context (trim key)).getD [] = trim value)
    else .ok false
  else .ok false

/-- The `PolicyEvaluation` built for one rule inside `PolicyEngine.evaluate`. -/
def mkEvaluation (rule : PolicyRule) (matched : Bool) : PolicyEvaluation :=
  { rule := rule
    matched := matched
    verdict := if matched then rule.verdict else .ALLOW
    explanation :=
      ("Rule ").data ++ [quoteChar] ++ rule.name ++ [quoteChar, ' '] ++
        (if matched then ("matched").data else ("did not match").data) }

/-- Embedding of `PolicyEngine.evaluate`: one evaluation per registered rule in
registration order; an exception from a condition check propagates. -/
def evaluate (research : Str → Str → Except Unit Bool)
    (rules : List PolicyRule) (query : Str) (evidence : RetrievalResponse)
    (context : List (Str × Str)) : Except Unit (List PolicyEvaluation) :=
  match rules with
  | [] => .ok []
  | rule :: rest =>
    match check_condition research rule query evidence context with
    | .error e => .error e
    | .ok matched =>
      match evaluate research rest query evidence context with
      | .error e => .error e
      | .ok evs => .ok (mkEvaluation rule matched :: evs)

/-- Embedding of `PolicyEngine.check_allowed`: first pass looks for a matched
DENY, second for a matched NEEDS_APPROVAL. -/
def check_allowed (evaluations : List PolicyEvaluation) : PolicyVerdict :=
  if evaluations.any (fun ev => ev.matched ∧ ev.verdict = .DENY) then .DENY
  else if evaluations.any (fun ev => ev.matched ∧ ev.verdict = .NEEDS_APPROVAL) then
    .NEEDS_APPROVAL
  else .ALLOW

end PolicyEngine

/-- Model of CPython `bool(re.search(pattern, query, re.IGNORECASE))` for the
pattern shapes this development exercises: a pattern without regex
metacharacters is a case-insensitive substring search, and the lone pattern
consisting of one opening parenthesis is malformed — CPython raises
`re.error` (missing closing parenthesis, unterminated subpattern), modelled
as `Except.error ()`. -/
def re_search : Str → Str → Except Unit Bool := fun pattern query =>
  if pattern = ['('] then .error ()
  else .ok (hasSub (lower pattern) (lower query))

/-! ## Decision agent (`nanocortex/reasoning/agent.py`)

`DecisionAgent` holds `_state` and `_pending_decision`; the embedding passes
that pair explicitly.  `_call_orchestrator` / `_call_auditor` wrap HTTP calls
with a total fallback (every exception is caught inside them), so they are
modelled as total function parameters `gen` / `aud` giving the answer/review
string they return.  Audit-sink calls are external side effects with no
observable return and are dropped.  The fresh uuid drawn when a `Decision` is
constructed is the `freshId` parameter. -/

structure LLMProviderConfig where
  api_key : Str
  model : Str
  base_url : Str
  role : Str
deriving DecidableEq, Repr

/-- `Settings` restricted to the fields the embedded code reads
(path/log options feed only external collaborators). -/
structure Settings where
  orchestrator : LLMProviderConfig
  auditor : LLMProviderConfig
  ingestion_helper : LLMProviderConfig
  enable_human_in_loop : Bool
  max_retries : ℤ
deriving DecidableEq, Repr

/-- The mutable fields of a `DecisionAgent` (initially `RUNNING`, no pending). -/
structure AgentSt where
  state : AgentState
  pending_decision : Option Decision
deriving DecidableEq, Repr

/-- The pending-answer marker prefixed by `decide` while awaiting approval. -/
def awaitingMarker : Str := ("[AWAITING APPROVAL] ").data

/-- The fixed denial answer of the DENY branch of `decide`. -/
def deniedAnswer : Str := ("[DENIED] Policy violation: action not permitted.").data

namespace DecisionAgent

/-- Embedding of `DecisionAgent.decide`.  Returns the agent state after the
call together with the returned `Decision`; a policy-evaluation exception
propagates (the mutated-but-lost intermediate state of that path is not
tracked). -/
def decide (sets : Settings) (research : Str → Str → Except Unit Bool)
    (gen : Str → RetrievalResponse → Str) (aud : Str → Str → RetrievalResponse → Str)
    (rules : List PolicyRule) (freshId : Str) (st : AgentSt)
    (query : Str) (evidence : RetrievalResponse) (context : List (Str × Str)) :
    Except Unit (AgentSt × Decision) :=
  match PolicyEngine.evaluate research rules query evidence context with
  | .error e => .error e
  | .ok evaluations =>
  let aggregate_verdict := PolicyEngine.check_allowed evaluations
  if aggregate_verdict = .DENY then
    let decision : Decision :=
      { decision_id := freshId
        query := query
        answer := deniedAnswer
        evidence := evidence.results
        policy_evaluations := evaluations
        agent_state := .FAILED
        model_used := []
        auditor_model := [] }
    .ok ({ state := .FAILED, pending_decision := st.pending_decision }, decision)
  else
    let answer := gen query evidence
    let _audit_result := aud query answer evidence
    let decision : Decision :=
      { decision_id := freshId
        query := query
        answer := answer
        evidence := evidence.results
        policy_evaluations := evaluations
        agent_state := .COMPLETED
        model_used := sets.orchestrator.model
        auditor_model := sets.auditor.model }
    if aggregate_verdict = .NEEDS_APPROVAL ∧ sets.enable_human_in_loop then
      let waiting : Decision :=
        { decision with
          agent_state := .WAITING_APPROVAL
          answer := awaitingMarker ++ answer }
      .ok ({ state := .WAITING_APPROVAL, pending_decision := some decision }, waiting)
    else
      .ok ({ state := .COMPLETED, pending_decision := st.pending_decision }, decision)

/-- Embedding of `DecisionAgent.approve`. -/
def approve (st : AgentSt) (decision_id : Str) : AgentSt × Option Decision :=
  match st.pending_decision with
  | none => (st, none)
  | some pend =>
    if pend.decision_id ≠ decision_id then (st, none)
    else
      let approved : Decision :=
        { pend with
          agent_state := .COMPLETED
          answer := replaceSeq awaitingMarker [] pend.answer }
      ({ state := .COMPLETED, pending_decision := none }, some approved)

/-- Embedding of `DecisionAgent.reject`. -/
def reject (st : AgentSt) (decision_id : Str) (reason : Str) : AgentSt × Option Decision :=
  match st.pending_decision with
  | none => (st, none)
  | some pend =>
    if pend.decision_id ≠ decision_id then (st, none)
    else
      let rejected : Decision :=
        { pend with
          agent_state := .FAILED
          answer :=
            if reason ≠ [] then ("[REJECTED] ").data ++ reason
            else ("[REJECTED]").data }
      ({ state := .FAILED, pending_decision := none }, some rejected)

end DecisionAgent

/-! ## Learning loop (`nanocortex/learning/feedback.py`)

State is the feedback list, the adjustment list and the mistake `Counter`.
`LearningAdjustment` uuid/timestamp default-factory fields are omitted. -/

/-- The mutable collections of a `LearningLoop`. -/
structure LoopSt where
  feedback : List FeedbackRecord
  adjustments : List LearningAdjustment
  mistake_counts : List (Str × ℕ)
deriving DecidableEq, Repr

/-- A fresh `LearningLoop`. -/
def loopInit : LoopSt := { feedback := [], adjustments := [], mistake_counts := [] }

namespace LearningLoop

/-- The `retrieval_weight` adjustment built in `_check_for_adjustments`
(`0.1` is the exact decimal the spec and source write). -/
def retrievalAdjustment (f : FeedbackRecord) (hallucinations : ℕ) : LearningAdjustment :=
  { trigger_feedback_id := f.feedback_id
    adjustment_type := ("retrieval_weight").data
    description :=
      ("Increasing retrieval confidence threshold after ").data ++
        natStr hallucinations ++ (" hallucinations detected").data
    parameters :=
      [(("min_score_threshold").data, PVal.num ((1 / 10) * ((hallucinations / 3 : ℕ) : ℚ)))] }

/-- The `prompt_patch` adjustment built in `_check_for_adjustments`. -/
def promptAdjustment (f : FeedbackRecord) (incorrect : ℕ) : LearningAdjustment :=
  { trigger_feedback_id := f.feedback_id
    adjustment_type := ("prompt_patch").data
    description :=
      ("Suggesting stricter evidence grounding after ").data ++
        natStr incorrect ++ (" incorrect answers").data
    parameters := [(("patch").data, PVal.strv ("require_exact_citation").data)] }

/-- Embedding of `LearningLoop._check_for_adjustments`. -/
def check_for_adjustments (st : LoopSt) (f : FeedbackRecord) : LoopSt :=
  let hallucinations := cget st.mistake_counts ("hallucination").data
  let incorrect := cget st.mistake_counts ("incorrect").data
  let st :=
    if 0 < hallucinations ∧ hallucinations % 3 = 0 then
      { st with adjustments := st.adjustments ++ [retrievalAdjustment f hallucinations] }
    else st
  if 0 < incorrect ∧ incorrect % 5 = 0 then
    { st with adjustments := st.adjustments ++ [promptAdjustment f incorrect] }
  else st

/-- Embedding of `LearningLoop.record_feedback` (which returns its argument;
the embedding returns the updated state). -/
def record_feedback (st : LoopSt) (f : FeedbackRecord) : LoopSt :=
  let st := { st with feedback := st.feedback ++ [f] }
  let st :=
    if f.rating = .INCORRECT ∨ f.rating = .HALLUCINATION then
      { st with mistake_counts := cinc st.mistake_counts (ratingValue f.rating) }
    else st
  check_for_adjustments st f

/-- A sequence of `record_feedback` calls. -/
def recordSeq (st : LoopSt) (fs : List FeedbackRecord) : LoopSt :=
  fs.foldl record_feedback st

end LearningLoop

/-! ## Knowledge store (`nanocortex/knowledge/retriever.py`)

`math.log` is the one transcendental the scoring uses; it is passed in as a
parameter `log : ℚ → ℚ` (its argument `(n - df + 0.5)/(df + 0.5) + 1` equals
`(n + 1)/(df + 0.5)` and is always positive).  `list.sort(key=..., reverse=True)`
and `sorted(..., reverse=True)` are stable descending sorts; a stable sort by a
given key is unique, so the insertion sort `sortDesc` below is their exact
model. -/

structure Chunk where
  chunk_id : Str
  doc_id : Str
  text : Str
  page : ℤ
  bbox_data : Option BoundingBox
  image_id : Option Str
  modality : Str
deriving DecidableEq, Repr

namespace KnowledgeStore

/-- Stable insert for the descending-by-score sort: the inserted element goes
before the first element whose score is not greater, so an element placed by
`foldr` (which is original-earlier than the already-sorted tail) precedes
equal scores. -/
def insertDesc (x : Chunk × ℚ) : List (Chunk × ℚ) → List (Chunk × ℚ)
  | [] => [x]
  | y :: l => if y.2 ≤ x.2 then x :: y :: l else y :: insertDesc x l

/-- Stable sort by score, descending: the model of
`scored.sort(key=lambda x: x[1], reverse=True)`. -/
def sortDesc (l : List (Chunk × ℚ)) : List (Chunk × ℚ) :=
  l.foldr insertDesc []

/-- `chunk.text.lower().split()` (the token list, duplicates kept). -/
def toksLower (s : Str) : List Str := toks (lower s)

/-- The `doc_freq` Counter of `_bm25_score`: for every chunk and every query
term (duplicates included) present in the chunk token set, one increment. -/
def bm25DocFreq (queryTerms : List Str) (chunks : List Chunk) : List (Str × ℕ) :=
  chunks.foldl
    (fun df chunk =>
      let terms := toksLower chunk.text
      queryTerms.foldl (fun df t => if t ∈ terms then cinc df t else df) df)
    []

/-- The per-chunk score loop of `_bm25_score` (parameters `k1=1.5`, `b=0.75`;
`tf` via the `term_counts` Counter equals `List.count`). -/
def bm25ChunkScore (log : ℚ → ℚ) (queryTerms : List Str) (df : List (Str × ℕ))
    (n : ℕ) (avg_dl : ℚ) (chunk : Chunk) : ℚ :=
  let chunk_terms := toksLower chunk.text
  let dl : ℚ := chunk_terms.length
  queryTerms.foldl
    (fun score t =>
      let tf : ℕ := chunk_terms.count t
      let dft : ℕ := cget df t
      if tf = 0 ∨ dft = 0 then score
      else
        let idf := log (((n : ℚ) - (dft : ℚ) + 1 / 2) / ((dft : ℚ) + 1 / 2) + 1)
        let numerator := (tf : ℚ) * (3 / 2 + 1)
        let denominator := (tf : ℚ) + (3 / 2) * (1 - 3 / 4 + (3 / 4) * dl / avg_dl)
        score + idf * numerator / denominator)
    0

/-- Embedding of `KnowledgeStore._bm25_score`. -/
def bm25_score (log : ℚ → ℚ) (query : Str) (chunks : List Chunk) :
    List (Chunk × ℚ) :=
  let query_terms := toksLower query
  if query_terms = [] then chunks.map fun c => (c, 0)
  else
    let n := chunks.length
    let df := bm25DocFreq query_terms chunks
    let avg_dl : ℚ :=
      ((chunks.map fun c => ((toks c.text).length : ℚ)).sum) / ((max n 1 : ℕ) : ℚ)
    chunks.map fun c => (c, bm25ChunkScore log query_terms df n avg_dl c)

/-- Embedding of `KnowledgeStore._vector_score` (token-set Jaccard proxy). -/
def vector_score (query : Str) (chunks : List Chunk) : List (Chunk × ℚ) :=
  let query_terms := (toksLower query).dedup
  chunks.map fun c =>
    let chunk_terms := (toksLower c.text).dedup
    if query_terms = [] ∨ chunk_terms = [] then (c, 0)
    else
      let intersection := query_terms.filter (· ∈ chunk_terms)
      let union := (query_terms ++ chunk_terms).dedup
      (c, if union = [] then 0 else (intersection.length : ℚ) / (union.length : ℚ))

/-- One pass of `_rrf_fuse` over a ranked list: `i` is the 1-based `enumerate`
rank, the pair is the `scores` dict and the `chunk_map` dict. -/
def rrfAddList (k : ℚ) :
    List (Str × ℚ) × List (Str × Chunk) → ℕ → List (Chunk × ℚ) →
      List (Str × ℚ) × List (Str × Chunk)
  | acc, _, [] => acc
  | (scores, chunk_map), i, (chunk, _) :: rest =>
    rrfAddList k
      (dset scores chunk.chunk_id ((dget? scores chunk.chunk_id).getD 0 + 1 / (k + (i : ℚ))),
        dset chunk_map chunk.chunk_id chunk)
      (i + 1) rest

/-- The `scores`/`chunk_map` dicts after `_rrf_fuse` has processed every ranked
list (each list re-sorted descending by its own scores before ranking). -/
def rrfState (k : ℚ) (ranked_lists : List (List (Chunk × ℚ))) :
    List (Str × ℚ) × List (Str × Chunk) :=
  ranked_lists.foldl (fun acc ranked => rrfAddList k acc 1 (sortDesc ranked)) ([], [])

/-- A placeholder chunk for the (unreachable) missed `chunk_map` lookup. -/
def defaultChunk : Chunk :=
  { chunk_id := [], doc_id := [], text := [], page := 0
    bbox_data := none, image_id := none, modality := [] }

/-- Embedding of `KnowledgeStore._rrf_fuse` (`k=60` at every call site). -/
def rrf_fuse (k : ℚ) (ranked_lists : List (List (Chunk × ℚ))) : List (Chunk × ℚ) :=
  let st := rrfState k ranked_lists
  st.1.map fun p => ((dget? st.2 p.1).getD defaultChunk, p.2)

/-- The scored list `retrieve` computes for a strategy before sorting
(the final `else` branch of the dispatch is hybrid). -/
def scoredOf (log : ℚ → ℚ) (chunks : List Chunk) (query : Str) (strategy : Str) :
    List (Chunk × ℚ) :=
  if strategy = ("bm25").data then bm25_score log query chunks
  else if strategy = ("vector").data then vector_score query chunks
  else rrf_fuse 60 [bm25_score log query chunks, vector_score query chunks]

/-- The ranked `(chunk, raw score)` list behind `retrieve`: sort descending,
truncate to `top_k`, then drop non-positive scores (`continue` in the loop). -/
def retrieveRanked (log : ℚ → ℚ) (chunks : List Chunk) (query : Str)
    (top_k : ℕ) (strategy : Str) : List (Chunk × ℚ) :=
  if chunks = [] then []
  else
    ((sortDesc (scoredOf log chunks query strategy)).take top_k).filter
      fun p => 0 < p.2

/-- The `RetrievalResult` built for one kept `(chunk, score)` pair
(`score` rounded to 4 digits, snippet is the first 200 characters). -/
def mkResult (p : Chunk × ℚ) : RetrievalResult :=
  { chunk_id := p.1.chunk_id
    text := p.1.text
    score := pyRound4 p.2
    citations :=
      [{ doc_id := p.1.doc_id
         page := p.1.page
         bbox := none
         image_id := p.1.image_id
         snippet := p.1.text.take 200 }]
    modality := p.1.modality }

/-- Embedding of `KnowledgeStore.retrieve` (empty store short-circuits to an
empty result tuple). -/
def retrieve (log : ℚ → ℚ) (chunks : List Chunk) (query : Str) (top_k : ℕ)
    (strategy : Str) : RetrievalResponse :=
  { query := query
    results := (retrieveRanked log chunks query top_k strategy).map mkResult
    strategy := strategy }

/-- The loop body of `KnowledgeStore._split_text`: the accumulator pair is
(`chunks`, `current`). -/
def splitStep (max_chars : ℕ) (acc : List Str × Str) (sentence : Str) :
    List Str × Str :=
  let chunks := acc.1
  let current := acc.2
  let candidate :=
    if current ≠ [] then trim (current ++ (". ").data ++ sentence)
    else sentence
  if max_chars < candidate.length ∧ current ≠ [] then
    (chunks ++ [trim current], sentence)
  else (chunks, candidate)

/-- Embedding of `KnowledgeStore._split_text`. -/
def split_text (text : Str) (max_chars : ℕ) : List Str :=
  if text.length ≤ max_chars then [text]
  else
    let sentences := splitSeq (". ").data (replaceChar '\n' ' ' text)
    let acc := sentences.foldl (splitStep max_chars) ([], [])
    let chunks := if trim acc.2 ≠ [] then acc.1 ++ [trim acc.2] else acc.1
    if chunks = [] then [text] else chunks

end KnowledgeStore

/-! ## Concrete fixtures used by witnesses and counterexamples -/

/-- Stand-in for `math.log` in concrete computations.  Every fact proved with
it states explicitly which property of the real logarithm it relies on
(only `0 < log (6/5)`, true since `6/5 > 1`). -/
def logStub : ℚ → ℚ := fun _ => 1

/-- First indexed chunk of the tie fixture (text `rare`). -/
def chunkRare1 : Chunk where
  chunk_id := ("c1").data
  doc_id := ("d").data
  text := ("rare").data
  page := 0
  bbox_data := none
  image_id := none
  modality := ("text").data

/-- Second indexed chunk of the tie fixture (text `rare rare`). -/
def chunkRare2 : Chunk where
  chunk_id := ("c2").data
  doc_id := ("d").data
  text := ("rare rare").data
  page := 0
  bbox_data := none
  image_id := none
  modality := ("text").data

/-- An empty retrieval response (no evidence). -/
def emptyEvidence : RetrievalResponse where
  query := ("q").data
  results := []
  strategy := ("hybrid").data

/-- A rule that requires approval when retrieval finds nothing. -/
def approvalRule : PolicyRule where
  rule_id := ("r1").data
  name := ("approval-on-empty").data
  description := []
  condition := ("no_evidence").data
  verdict := .NEEDS_APPROVAL

/-- A rule that denies when retrieval finds nothing. -/
def denyRule : PolicyRule where
  rule_id := ("r2").data
  name := ("deny-on-empty").data
  description := []
  condition := ("context:env=prod").data
  verdict := .DENY

/-- A rule that denies when retrieval finds nothing. -/
def denyEmptyRule : PolicyRule where
  rule_id := ("r4").data
  name := ("deny-empty").data
  description := []
  condition := ("no_evidence").data
  verdict := .DENY

/-- A DENY rule whose `contains:` condition holds a malformed regex
(a lone unbalanced opening parenthesis). -/
def badRegexRule : PolicyRule where
  rule_id := ("r3").data
  name := ("bad-regex").data
  description := []
  condition := ("contains:(").data
  verdict := .DENY

/-- Settings fixture with human-in-the-loop enabled. -/
def hilSettings : Settings where
  orchestrator := { api_key := [], model := ("m1").data, base_url := [], role := [] }
  auditor := { api_key := [], model := ("m2").data, base_url := [], role := [] }
  ingestion_helper := { api_key := [], model := [], base_url := [], role := [] }
  enable_human_in_loop := true
  max_retries := 3

/-- A generator stub (models `_call_orchestrator` returning some answer). -/
def genStub : Str → RetrievalResponse → Str := fun _ _ => ("answer").data

/-- A second, different generator stub. -/
def genStub2 : Str → RetrievalResponse → Str := fun _ _ => ("other answer").data

/-- An auditor stub. -/
def audStub : Str → Str → RetrievalResponse → Str := fun _ _ _ => ("PASS").data

/-- A second, different auditor stub. -/
def audStub2 : Str → Str → RetrievalResponse → Str := fun _ _ _ => ("FAIL").data

/-- A freshly constructed agent (`RUNNING`, nothing pending). -/
def agentInit : AgentSt where
  state := .RUNNING
  pending_decision := none

/-- The agent state of an `Except`-valued `decide` outcome
(`agentInit` on the unreachable error side). -/
def stateOf (e : Except Unit (AgentSt × Decision)) : AgentSt :=
  match e with
  | .ok p => p.1
  | .error _ => agentInit

/-- A HALLUCINATION feedback record. -/
def hallFb : FeedbackRecord where
  feedback_id := []
  decision_id := []
  rating := .HALLUCINATION
  corrected_answer := []
  explanation := []

/-- An INCORRECT feedback record. -/
def incFb : FeedbackRecord where
  feedback_id := []
  decision_id := []
  rating := .INCORRECT
  corrected_answer := []
  explanation := []

/-- Number of feedback records with a given rating. -/
def countRating (fs : List FeedbackRecord) (r : OutcomeRating) : ℕ :=
  (fs.filter fun f => f.rating = r).length

/-! ## Helper lemmas -/

namespace PolicyEngine

/-- Unfolding of the matched/any test used by `check_allowed`. -/
theorem any_matched_iff (l : List PolicyEvaluation) (v : PolicyVerdict) :
    (l.any fun ev => ev.matched ∧ ev.verdict = v) = true ↔
      ∃ ev ∈ l, ev.matched = true ∧ ev.verdict = v := by
  simp [List.any_eq_true]

end PolicyEngine

/-! ## Claims -/

/-- C2: the spec promises that unrecognized or malformed condition strings
evaluate to not-matched and never raise; but the `contains:` branch of
`_check_condition` calls `re.search` with no exception handling, so a
malformed regex pattern (here the lone `(` of `badRegexRule`) raises
`re.error`, which also aborts `evaluate`.  This theorem evaluates the
embedded code at that failing input. -/
theorem C2_malformed_regex_raises :
    PolicyEngine.check_condition re_search badRegexRule (("hello").data)
        emptyEvidence [] = .error () ∧
      PolicyEngine.evaluate re_search [badRegexRule] (("hello").data)
        emptyEvidence [] = .error () := by
  constructor
  · rfl
  · rfl

/-- C9: `check_allowed` is priority-based aggregation — any matched DENY
forces verdict DENY regardless of coexisting matched NEEDS_APPROVAL
evaluations; otherwise a matched NEEDS_APPROVAL forces NEEDS_APPROVAL;
otherwise ALLOW — and the verdict is invariant under permutation of the
evaluation list. -/
theorem C9_check_allowed_priority (l : List PolicyEvaluation) :
    ((∃ ev ∈ l, ev.matched = true ∧ ev.verdict = .DENY) →
      PolicyEngine.check_allowed l = .DENY) ∧
    ((¬ ∃ ev ∈ l, ev.matched = true ∧ ev.verdict = .DENY) →
      (∃ ev ∈ l, ev.matched = true ∧ ev.verdict = .NEEDS_APPROVAL) →
      PolicyEngine.check_allowed l = .NEEDS_APPROVAL) ∧
    ((¬ ∃ ev ∈ l, ev.matched = true ∧ ev.verdict = .DENY) →
      (¬ ∃ ev ∈ l, ev.matched = true ∧ ev.verdict = .NEEDS_APPROVAL) →
      PolicyEngine.check_allowed l = .ALLOW) ∧
    (∀ l', l.Perm l' →
      PolicyEngine.check_allowed l = PolicyEngine.check_allowed l') := by
  have hgen : ∀ m : List PolicyEvaluation,
      ((∃ ev ∈ m, ev.matched = true ∧ ev.verdict = .DENY) →
        PolicyEngine.check_allowed m = .DENY) ∧
      ((¬ ∃ ev ∈ m, ev.matched = true ∧ ev.verdict = .DENY) →
        (∃ ev ∈ m, ev.matched = true ∧ ev.verdict = .NEEDS_APPROVAL) →
        PolicyEngine.check_allowed m = .NEEDS_APPROVAL) ∧
      ((¬ ∃ ev ∈ m, ev.matched = true ∧ ev.verdict = .DENY) →
        (¬ ∃ ev ∈ m, ev.matched = true ∧ ev.verdict = .NEEDS_APPROVAL) →
        PolicyEngine.check_allowed m = .ALLOW) := by
    intro m
    refine ⟨fun hd => ?_, fun hnd hn => ?_, fun hnd hnn => ?_⟩
    · unfold PolicyEngine.check_allowed
      rw [if_pos ((PolicyEngine.any_matched_iff m _).mpr hd)]
    · unfold PolicyEngine.check_allowed
      rw [if_neg, if_pos ((PolicyEngine.any_matched_iff m _).mpr hn)]
      simp only [PolicyEngine.any_matched_iff]
      exact hnd
    · unfold PolicyEngine.check_allowed
      rw [if_neg, if_neg]
      · simp only [PolicyEngine.any_matched_iff]; exact hnn
      · simp only [PolicyEngine.any_matched_iff]; exact hnd
  refine ⟨(hgen l).1, (hgen l).2.1, (hgen l).2.2, fun l' hp => ?_⟩
  by_cases hd : ∃ ev ∈ l, ev.matched = true ∧ ev.verdict = .DENY
  · obtain ⟨ev, hm, hrest⟩ := hd
    rw [(hgen l).1 ⟨ev, hm, hrest⟩, (hgen l').1 ⟨ev, hp.mem_iff.mp hm, hrest⟩]
  · have hd' : ¬ ∃ ev ∈ l', ev.matched = true ∧ ev.verdict = .DENY := by
      intro hx
      obtain ⟨ev, hm, hrest⟩ := hx
      exact hd ⟨ev, hp.mem_iff.mpr hm, hrest⟩
    by_cases hn : ∃ ev ∈ l, ev.matched = true ∧ ev.verdict = .NEEDS_APPROVAL
    · obtain ⟨ev, hm, hrest⟩ := hn
      rw [(hgen l).2.1 hd ⟨ev, hm, hrest⟩,
        (hgen l').2.1 hd' ⟨ev, hp.mem_iff.mp hm, hrest⟩]
    · have hn' : ¬ ∃ ev ∈ l', ev.matched = true ∧ ev.verdict = .NEEDS_APPROVAL := by
        intro hx
        obtain ⟨ev, hm, hrest⟩ := hx
        exact hn ⟨ev, hp.mem_iff.mpr hm, hrest⟩
      rw [(hgen l).2.2 hd hn, (hgen l').2.2 hd' hn']

/-- C9 witness: a list holding a matched NEEDS_APPROVAL evaluation and a
matched DENY evaluation aggregates to DENY. -/
theorem C9_witness :
    PolicyEngine.check_allowed
        [PolicyEngine.mkEvaluation approvalRule true,
          PolicyEngine.mkEvaluation denyRule true] = .DENY :=
  (C9_check_allowed_priority _).1
    ⟨PolicyEngine.mkEvaluation denyRule true, by decide, by decide⟩

/-- C10: `evaluate` returns exactly one evaluation per registered rule, in
registration order (the evaluation list projects to the rule list), and an
evaluation whose rule did not match carries verdict ALLOW — not the rule
verdict, which only a matched evaluation carries. -/
theorem C10_evaluate_per_rule (research : Str → Str → Except Unit Bool)
    (rules : List PolicyRule) (query : Str) (evidence : RetrievalResponse)
    (context : List (Str × Str)) (evs : List PolicyEvaluation)
    (h : PolicyEngine.evaluate research rules query evidence context = .ok evs) :
    evs.map PolicyEvaluation.rule = rules ∧
      ∀ ev ∈ evs, (ev.matched = false → ev.verdict = .ALLOW) ∧
        (ev.matched = true → ev.verdict = ev.rule.verdict) := by
  induction rules generalizing evs with
  | nil =>
    rw [PolicyEngine.evaluate] at h
    cases h
    simp
  | cons r rest ih =>
    rw [PolicyEngine.evaluate] at h
    cases hc : PolicyEngine.check_condition research r query evidence context with
    | error e => rw [hc] at h; cases h
    | ok m =>
      rw [hc] at h
      cases hr : PolicyEngine.evaluate research rest query evidence context with
      | error e => rw [hr] at h; cases h
      | ok evs2 =>
        rw [hr] at h
        cases h
        obtain ⟨ihmap, ihall⟩ := ih evs2 hr
        refine ⟨by simp [ihmap, PolicyEngine.mkEvaluation], ?_⟩
        intro ev hev
        rcases List.mem_cons.mp hev with hhead | htail
        · subst hhead
          cases m with
          | false => exact ⟨fun _ => rfl, by simp [PolicyEngine.mkEvaluation]⟩
          | true => exact ⟨by simp [PolicyEngine.mkEvaluation], fun _ => rfl⟩
        · exact ihall ev htail

/-- C10 witness: evaluating a matching NEEDS_APPROVAL rule followed by a
non-matching DENY rule yields evaluations projecting to the rule list, the
second carrying verdict ALLOW. -/
theorem C10_witness :
    PolicyEngine.evaluate re_search [approvalRule, denyRule] (("q").data)
        emptyEvidence [] =
      .ok [PolicyEngine.mkEvaluation approvalRule true,
        PolicyEngine.mkEvaluation denyRule false] ∧
    [PolicyEngine.mkEvaluation approvalRule true,
        PolicyEngine.mkEvaluation denyRule false].map PolicyEvaluation.rule =
      [approvalRule, denyRule] ∧
    ∀ ev ∈ [PolicyEngine.mkEvaluation approvalRule true,
        PolicyEngine.mkEvaluation denyRule false],
      (ev.matched = false → ev.verdict = .ALLOW) ∧
        (ev.matched = true → ev.verdict = ev.rule.verdict) := by
  have h : PolicyEngine.evaluate re_search [approvalRule, denyRule] (("q").data)
      emptyEvidence [] =
        .ok [PolicyEngine.mkEvaluation approvalRule true,
          PolicyEngine.mkEvaluation denyRule false] := rfl
  have h2 := C10_evaluate_per_rule re_search [approvalRule, denyRule] (("q").data)
    emptyEvidence [] _ h
  exact ⟨h, h2.1, h2.2⟩

/-- C3: when the aggregate verdict is DENY, `decide` returns the fixed-denial
FAILED decision and never invokes the external generator or reviewer: the
outcome is identical for every pair of generator/reviewer functions, and its
shape is the explicit denial record. -/
theorem C3_deny_skips_generation (sets : Settings)
    (research : Str → Str → Except Unit Bool)
    (gen₁ gen₂ : Str → RetrievalResponse → Str)
    (aud₁ aud₂ : Str → Str → RetrievalResponse → Str)
    (rules : List PolicyRule) (freshId : Str) (st : AgentSt) (query : Str)
    (evidence : RetrievalResponse) (context : List (Str × Str))
    (evs : List PolicyEvaluation)
    (hev : PolicyEngine.evaluate research rules query evidence context = .ok evs)
    (hden : PolicyEngine.check_allowed evs = .DENY) :
    DecisionAgent.decide sets research gen₁ aud₁ rules freshId st query evidence context =
      DecisionAgent.decide sets research gen₂ aud₂ rules freshId st query evidence context ∧
    DecisionAgent.decide sets research gen₁ aud₁ rules freshId st query evidence context =
      .ok ({ state := .FAILED, pending_decision := st.pending_decision },
        { decision_id := freshId
          query := query
          answer := deniedAnswer
          evidence := evidence.results
          policy_evaluations := evs
          agent_state := .FAILED
          model_used := []
          auditor_model := [] }) := by
  rw [DecisionAgent.decide, DecisionAgent.decide, hev]
  simp [hden]

/-- C3 witness: with a matching DENY rule and empty evidence, two runs of
`decide` differing in both generator and reviewer stubs return the same
fixed denial decision. -/
theorem C3_witness :
    DecisionAgent.decide hilSettings re_search genStub audStub [denyEmptyRule]
        (("id1").data) agentInit (("q").data) emptyEvidence [] =
      DecisionAgent.decide hilSettings re_search genStub2 audStub2 [denyEmptyRule]
        (("id1").data) agentInit (("q").data) emptyEvidence [] ∧
    DecisionAgent.decide hilSettings re_search genStub audStub [denyEmptyRule]
        (("id1").data) agentInit (("q").data) emptyEvidence [] =
      .ok ({ state := .FAILED, pending_decision := none },
        { decision_id := ("id1").data
          query := ("q").data
          answer := deniedAnswer
          evidence := []
          policy_evaluations := [PolicyEngine.mkEvaluation denyEmptyRule true]
          agent_state := .FAILED
          model_used := []
          auditor_model := [] }) :=
  C3_deny_skips_generation hilSettings re_search genStub genStub2 audStub audStub2
    [denyEmptyRule] (("id1").data) agentInit (("q").data) emptyEvidence []
    [PolicyEngine.mkEvaluation denyEmptyRule true] rfl rfl

/-- First `decide` run of the C1 scenario: empty evidence matches the
NEEDS_APPROVAL rule with human-in-loop enabled. -/
def C1run1 : Except Unit (AgentSt × Decision) :=
  DecisionAgent.decide hilSettings re_search genStub audStub [approvalRule]
    (("id1").data) agentInit (("q").data) emptyEvidence []

/-- Agent state after the first C1 run (a decision with id `id1` pending). -/
def C1st1 : AgentSt := stateOf C1run1

/-- Second `decide` run of the C1 scenario, on the state holding a pending
decision. -/
def C1run2 : Except Unit (AgentSt × Decision) :=
  DecisionAgent.decide hilSettings re_search genStub audStub [approvalRule]
    (("id2").data) C1st1 (("q").data) emptyEvidence []

/-- Agent state after the second C1 run. -/
def C1st2 : AgentSt := stateOf C1run2

/-- C1 counterexample: the first `decide` leaves decision `id1` pending; a
second `decide` reaching NEEDS_APPROVAL silently replaces it with `id2`, and
`approve`/`reject` of `id1` then return absent — the previously pending
decision is not retrievable, contrary to the claim. -/
theorem C1_counterexample :
    (C1st1.pending_decision.map fun d => d.decision_id) = some (("id1").data) ∧
    (C1st2.pending_decision.map fun d => d.decision_id) = some (("id2").data) ∧
    DecisionAgent.approve C1st2 (("id1").data) = (C1st2, none) ∧
    DecisionAgent.reject C1st2 (("id1").data) [] = (C1st2, none) := by
  refine ⟨rfl, rfl, rfl, rfl⟩

/-- C1 amended: a `decide` call that reaches NEEDS_APPROVAL with human-in-loop
enabled stores its own decision in the pending slot regardless of the prior
agent state — a previously pending decision is silently overwritten and its
identifier is afterwards rejected by `approve`/`reject`. -/
theorem C1_pending_overwritten (sets : Settings)
    (research : Str → Str → Except Unit Bool)
    (gen : Str → RetrievalResponse → Str)
    (aud : Str → Str → RetrievalResponse → Str)
    (rules : List PolicyRule) (freshId : Str) (st : AgentSt) (query : Str)
    (evidence : RetrievalResponse) (context : List (Str × Str))
    (evs : List PolicyEvaluation)
    (hev : PolicyEngine.evaluate research rules query evidence context = .ok evs)
    (hna : PolicyEngine.check_allowed evs = .NEEDS_APPROVAL)
    (hhil : sets.enable_human_in_loop = true) :
    DecisionAgent.decide sets research gen aud rules freshId st query evidence context =
      .ok ({ state := .WAITING_APPROVAL
             pending_decision := some
               { decision_id := freshId
                 query := query
                 answer := gen query evidence
                 evidence := evidence.results
                 policy_evaluations := evs
                 agent_state := .COMPLETED
                 model_used := sets.orchestrator.model
                 auditor_model := sets.auditor.model } },
        { decision_id := freshId
          query := query
          answer := awaitingMarker ++ gen query evidence
          evidence := evidence.results
          policy_evaluations := evs
          agent_state := .WAITING_APPROVAL
          model_used := sets.orchestrator.model
          auditor_model := sets.auditor.model }) ∧
    (∀ st' : AgentSt,
      DecisionAgent.decide sets research gen aud rules freshId st' query evidence context =
        DecisionAgent.decide sets research gen aud rules freshId st query evidence context) ∧
    (∀ oldId : Str, oldId ≠ freshId →
      (DecisionAgent.approve
        (stateOf (DecisionAgent.decide sets research gen aud rules freshId st
          query evidence context)) oldId).2 = none ∧
      (DecisionAgent.reject
        (stateOf (DecisionAgent.decide sets research gen aud rules freshId st
          query evidence context)) oldId []).2 = none) := by
  have hdec : DecisionAgent.decide sets research gen aud rules freshId st query
      evidence context =
      .ok ({ state := .WAITING_APPROVAL
             pending_decision := some
               { decision_id := freshId
                 query := query
                 answer := gen query evidence
                 evidence := evidence.results
                 policy_evaluations := evs
                 agent_state := .COMPLETED
                 model_used := sets.orchestrator.model
                 auditor_model := sets.auditor.model } },
        { decision_id := freshId
          query := query
          answer := awaitingMarker ++ gen query evidence
          evidence := evidence.results
          policy_evaluations := evs
          agent_state := .WAITING_APPROVAL
          model_used := sets.orchestrator.model
          auditor_model := sets.auditor.model }) := by
    rw [DecisionAgent.decide, hev]
    simp [hna, hhil]
  have hdec' : ∀ st' : AgentSt,
      DecisionAgent.decide sets research gen aud rules freshId st' query evidence
        context =
        DecisionAgent.decide sets research gen aud rules freshId st query evidence
          context := by
    intro st'
    rw [hdec, DecisionAgent.decide, hev]
    simp [hna, hhil]
  refine ⟨hdec, hdec', fun oldId hne => ?_⟩
  have hne' : ¬ (freshId = oldId) := fun h => hne h.symm
  rw [hdec]
  constructor
  · simp [stateOf, DecisionAgent.approve, hne']
  · simp [stateOf, DecisionAgent.reject, hne']

/-- C1 witness for the amended theorem: concrete instantiation of the
overwrite behaviour on the fixture scenario. -/
theorem C1_witness :
    DecisionAgent.decide hilSettings re_search genStub audStub [approvalRule]
        (("id2").data) C1st1 (("q").data) emptyEvidence [] =
      .ok ({ state := .WAITING_APPROVAL
             pending_decision := some
               { decision_id := ("id2").data
                 query := ("q").data
                 answer := genStub (("q").data) emptyEvidence
                 evidence := []
                 policy_evaluations := [PolicyEngine.mkEvaluation approvalRule true]
                 agent_state := .COMPLETED
                 model_used := hilSettings.orchestrator.model
                 auditor_model := hilSettings.auditor.model } },
        { decision_id := ("id2").data
          query := ("q").data
          answer := awaitingMarker ++ genStub (("q").data) emptyEvidence
          evidence := []
          policy_evaluations := [PolicyEngine.mkEvaluation approvalRule true]
          agent_state := .WAITING_APPROVAL
          model_used := hilSettings.orchestrator.model
          auditor_model := hilSettings.auditor.model }) ∧
    (DecisionAgent.approve
      (stateOf (DecisionAgent.decide hilSettings re_search genStub audStub
        [approvalRule] (("id2").data) C1st1 (("q").data) emptyEvidence []))
      (("id1").data)).2 = none := by
  have h := C1_pending_overwritten hilSettings re_search genStub audStub
    [approvalRule] (("id2").data) C1st1 (("q").data) emptyEvidence []
    [PolicyEngine.mkEvaluation approvalRule true] rfl rfl rfl
  exact ⟨h.1, (h.2.2 (("id1").data) (by decide)).1⟩

/-- C8: `approve` on the pending decision identifier returns the COMPLETED
decision carrying the same identifier with the pending marker stripped from
the answer and clears the pending slot; for any other identifier (no pending
decision, or a mismatched one) both `approve` and `reject` return absent and
leave the agent state untouched. -/
theorem C8_approve_reject_semantics (st : AgentSt) (did : Str) :
    (∀ pend, st.pending_decision = some pend → pend.decision_id = did →
      DecisionAgent.approve st did =
        ({ state := .COMPLETED, pending_decision := none },
          some { pend with
                 agent_state := .COMPLETED
                 answer := replaceSeq awaitingMarker [] pend.answer })) ∧
    ((∀ pend, st.pending_decision = some pend → pend.decision_id ≠ did) →
      DecisionAgent.approve st did = (st, none) ∧
      ∀ reason, DecisionAgent.reject st did reason = (st, none)) := by
  constructor
  · intro pend hp hid
    rw [DecisionAgent.approve, hp]
    simp [hid]
  · intro hmis
    cases hp : st.pending_decision with
    | none =>
      exact ⟨by simp [DecisionAgent.approve, hp], fun reason => by
        simp [DecisionAgent.reject, hp]⟩
    | some pend =>
      have hne := hmis pend hp
      exact ⟨by simp [DecisionAgent.approve, hp, hne],
        fun reason => by simp [DecisionAgent.reject, hp, hne]⟩

/-- A pending-decision fixture whose answer still carries the marker. -/
def pendingFixture : Decision where
  decision_id := ("id9").data
  query := ("q").data
  answer := awaitingMarker ++ ("yes").data
  evidence := []
  policy_evaluations := []
  agent_state := .COMPLETED
  model_used := []
  auditor_model := []

/-- An agent state with `pendingFixture` pending. -/
def stPending : AgentSt where
  state := .WAITING_APPROVAL
  pending_decision := some pendingFixture

/-- C8 witness: approving the pending identifier completes and strips the
marker (the concrete stripped answer is `yes`); approving or rejecting on an
agent with nothing pending returns absent and leaves the state unchanged. -/
theorem C8_witness :
    DecisionAgent.approve stPending (("id9").data) =
      ({ state := .COMPLETED, pending_decision := none },
        some { pendingFixture with
               agent_state := .COMPLETED
               answer := replaceSeq awaitingMarker [] pendingFixture.answer }) ∧
    replaceSeq awaitingMarker [] pendingFixture.answer = ("yes").data ∧
    DecisionAgent.approve agentInit (("id9").data) = (agentInit, none) ∧
    DecisionAgent.reject agentInit (("id9").data) [] = (agentInit, none) := by
  have hpos := (C8_approve_reject_semantics stPending (("id9").data)).1
    pendingFixture rfl rfl
  have hneg := (C8_approve_reject_semantics agentInit (("id9").data)).2
    (fun pend h => by cases h)
  exact ⟨hpos, by decide, hneg.1, hneg.2 []⟩

/-- Looking a key up in a non-empty counter: head entry or tail lookup. -/
theorem cget_cons (p : Str × ℕ) (t : List (Str × ℕ)) (k : Str) :
    cget (p :: t) k = if p.1 = k then p.2 else cget t k := by
  by_cases hp : p.1 = k <;> simp [cget, List.find?, hp]

/-- The value-increment map of `cinc` leaves lookups at other keys unchanged. -/
theorem cget_map_other (t : List (Str × ℕ)) (k k' : Str) (hkk : k' ≠ k) :
    cget (t.map fun q => if q.1 = k' then (q.1, q.2 + 1) else q) k = cget t k := by
  induction t with
  | nil => rfl
  | cons q t ih =>
    by_cases hq : q.1 = k'
    · have hqk : ¬ q.1 = k := by rw [hq]; exact hkk
      simp only [List.map_cons, if_pos hq]
      rw [cget_cons, cget_cons, if_neg hqk, if_neg hqk, ih]
    · simp only [List.map_cons, if_neg hq]
      rw [cget_cons, cget_cons, ih]

/-- The value-increment map of `cinc` raises the lookup at its key by one,
provided the key occurs. -/
theorem cget_map_self (t : List (Str × ℕ)) (k : Str)
    (h : t.any (fun q => q.1 = k) = true) :
    cget (t.map fun q => if q.1 = k then (q.1, q.2 + 1) else q) k = cget t k + 1 := by
  induction t with
  | nil => cases h
  | cons q t ih =>
    by_cases hq : q.1 = k
    · simp only [List.map_cons, if_pos hq]
      rw [cget_cons, cget_cons, if_pos hq, if_pos hq]
    · simp only [List.map_cons, if_neg hq]
      rw [cget_cons, cget_cons, if_neg hq, if_neg hq]
      refine ih ?_
      rcases List.any_eq_true.mp h with ⟨x, hx, hpx⟩
      rcases List.mem_cons.mp hx with rfl | hxt
      · exact absurd (of_decide_eq_true hpx) hq
      · exact List.any_eq_true.mpr ⟨x, hxt, hpx⟩

/-- Appending a differently-keyed entry leaves a counter lookup unchanged. -/
theorem cget_append_other (d : List (Str × ℕ)) (k k' : Str) (v : ℕ)
    (hkk : k' ≠ k) : cget (d ++ [(k', v)]) k = cget d k := by
  induction d with
  | nil => simp [cget, List.find?, hkk]
  | cons q t ih => rw [List.cons_append, cget_cons, cget_cons, ih]

/-- A key absent from a counter looks up to the default `0`. -/
theorem cget_eq_zero_of_not_any (d : List (Str × ℕ)) (k : Str)
    (h : ¬ d.any (fun q => q.1 = k) = true) : cget d k = 0 := by
  induction d with
  | nil => rfl
  | cons q t ih =>
    have hq : ¬ q.1 = k := fun hqk => h (by simp [List.any_cons, hqk])
    have hnt : ¬ (t.any fun q => q.1 = k) = true := fun ht => h (by simp [List.any_cons, ht])
    rw [cget_cons, if_neg hq]
    exact ih hnt

/-- Appending a fresh entry for an absent key makes its lookup the new value. -/
theorem cget_append_self (d : List (Str × ℕ)) (k : Str) (v : ℕ)
    (h : ¬ d.any (fun q => q.1 = k) = true) : cget (d ++ [(k, v)]) k = v := by
  induction d with
  | nil => simp [cget, List.find?]
  | cons q t ih =>
    have hq : ¬ q.1 = k := fun hqk => h (by simp [List.any_cons, hqk])
    have hnt : ¬ (t.any fun q => q.1 = k) = true := fun ht => h (by simp [List.any_cons, ht])
    rw [List.cons_append, cget_cons, if_neg hq]
    exact ih hnt

/-- Incrementing a counter key raises its looked-up value by one. -/
theorem cget_cinc_self (d : List (Str × ℕ)) (k : Str) :
    cget (cinc d k) k = cget d k + 1 := by
  rw [cinc]
  by_cases h : d.any fun q => q.1 = k
  · rw [if_pos h]
    exact cget_map_self d k h
  · rw [if_neg h, cget_eq_zero_of_not_any d k h, cget_append_self d k 1 h]

/-- Incrementing one counter key leaves other keys unchanged. -/
theorem cget_cinc_other (d : List (Str × ℕ)) (k k' : Str) (hkk : k' ≠ k) :
    cget (cinc d k') k = cget d k := by
  rw [cinc]
  by_cases h : d.any fun q => q.1 = k'
  · rw [if_pos h]
    exact cget_map_other d k k' hkk
  · rw [if_neg h]
    exact cget_append_other d k k' 1 hkk

namespace LearningLoop

/-- `_check_for_adjustments` never changes the mistake counters. -/
theorem check_for_adjustments_counts (st : LoopSt) (f : FeedbackRecord) :
    (check_for_adjustments st f).mistake_counts = st.mistake_counts := by
  rw [check_for_adjustments]
  split_ifs <;> rfl

/-- The adjustments appended by one `_check_for_adjustments` call, as a
function of the counters it reads. -/
theorem check_for_adjustments_adjustments (st : LoopSt) (f : FeedbackRecord) :
    (check_for_adjustments st f).adjustments =
      st.adjustments ++
        (if 0 < cget st.mistake_counts (("hallucination").data) ∧
            cget st.mistake_counts (("hallucination").data) % 3 = 0 then
          [retrievalAdjustment f (cget st.mistake_counts (("hallucination").data))]
        else []) ++
        (if 0 < cget st.mistake_counts (("incorrect").data) ∧
            cget st.mistake_counts (("incorrect").data) % 5 = 0 then
          [promptAdjustment f (cget st.mistake_counts (("incorrect").data))]
        else []) := by
  rw [check_for_adjustments]
  split_ifs <;> simp

/-- The counters of `record_feedback`: incremented at the rating key for
INCORRECT/HALLUCINATION, unchanged otherwise. -/
theorem record_feedback_counts (st : LoopSt) (f : FeedbackRecord) :
    (record_feedback st f).mistake_counts =
      if f.rating = .INCORRECT ∨ f.rating = .HALLUCINATION then
        cinc st.mistake_counts (ratingValue f.rating)
      else st.mistake_counts := by
  rw [record_feedback, check_for_adjustments_counts]
  split_ifs <;> rfl

/-- The counters of a reachable state equal the cumulative rating counts of
the recorded feedback sequence. -/
theorem recordSeq_counts (fs : List FeedbackRecord) :
    cget (recordSeq loopInit fs).mistake_counts (("hallucination").data) =
        countRating fs .HALLUCINATION ∧
      cget (recordSeq loopInit fs).mistake_counts (("incorrect").data) =
        countRating fs .INCORRECT := by
  induction fs using List.reverseRecOn with
  | nil => simp [recordSeq, loopInit, cget, countRating]
  | append_singleton fs f ih =>
    have hstep : recordSeq loopInit (fs ++ [f]) =
        record_feedback (recordSeq loopInit fs) f := by
      simp [recordSeq, List.foldl_append]
    have hcountH : countRating (fs ++ [f]) .HALLUCINATION =
        countRating fs .HALLUCINATION + (if f.rating = .HALLUCINATION then 1 else 0) := by
      by_cases hf : f.rating = .HALLUCINATION <;>
        simp [countRating, List.filter_append, hf]
    have hcountI : countRating (fs ++ [f]) .INCORRECT =
        countRating fs .INCORRECT + (if f.rating = .INCORRECT then 1 else 0) := by
      by_cases hf : f.rating = .INCORRECT <;>
        simp [countRating, List.filter_append, hf]
    rw [hstep, record_feedback_counts, hcountH, hcountI]
    cases hr : f.rating with
    | CORRECT =>
      rw [if_neg (by simp [hr])]
      simp [hr, ih.1, ih.2]
    | PARTIALLY_CORRECT =>
      rw [if_neg (by simp [hr])]
      simp [hr, ih.1, ih.2]
    | INCORRECT =>
      rw [if_pos (Or.inl rfl)]
      constructor
      · rw [show ratingValue .INCORRECT = ("incorrect").data from rfl,
          cget_cinc_other _ _ _ (by decide), ih.1]
        simp
      · rw [show ratingValue .INCORRECT = ("incorrect").data from rfl,
          cget_cinc_self, ih.2]
        simp
    | HALLUCINATION =>
      rw [if_pos (Or.inr rfl)]
      constructor
      · rw [show ratingValue .HALLUCINATION = ("hallucination").data from rfl,
          cget_cinc_self, ih.1]
        simp
      · rw [show ratingValue .HALLUCINATION = ("hallucination").data from rfl,
          cget_cinc_other _ _ _ (by decide), ih.2]
        simp

end LearningLoop

/-- Rating count across an appended single record. -/
theorem countRating_append (fs : List FeedbackRecord) (f : FeedbackRecord)
    (r : OutcomeRating) :
    countRating (fs ++ [f]) r =
      countRating fs r + (if f.rating = r then 1 else 0) := by
  by_cases hf : f.rating = r <;> simp [countRating, List.filter_append, hf]

/-- Rating count of a constant feedback sequence. -/
theorem countRating_replicate (n : ℕ) (f : FeedbackRecord) (r : OutcomeRating) :
    countRating (List.replicate n f) r = if f.rating = r then n else 0 := by
  induction n with
  | zero => simp [countRating]
  | succ n ih =>
    rw [List.replicate_succ]
    by_cases hf : f.rating = r <;> simp [countRating, hf]

namespace LearningLoop

/-- The adjustments appended by one `record_feedback` call, as a function of
the mistake counters after that call (which the threshold checks read). -/
theorem record_feedback_adjustments (st : LoopSt) (f : FeedbackRecord) :
    (record_feedback st f).adjustments =
      st.adjustments ++
        (if 0 < cget (record_feedback st f).mistake_counts (("hallucination").data) ∧
            cget (record_feedback st f).mistake_counts (("hallucination").data) % 3 = 0 then
          [retrievalAdjustment f
            (cget (record_feedback st f).mistake_counts (("hallucination").data))]
        else []) ++
        (if 0 < cget (record_feedback st f).mistake_counts (("incorrect").data) ∧
            cget (record_feedback st f).mistake_counts (("incorrect").data) % 5 = 0 then
          [promptAdjustment f
            (cget (record_feedback st f).mistake_counts (("incorrect").data))]
        else []) := by
  simp only [record_feedback]
  by_cases hr : f.rating = OutcomeRating.INCORRECT ∨ f.rating = OutcomeRating.HALLUCINATION
  · simp only [if_pos hr]
    rw [check_for_adjustments_adjustments]
    simp only [check_for_adjustments_counts]
  · simp only [if_neg hr]
    rw [check_for_adjustments_adjustments]
    simp only [check_for_adjustments_counts]

end LearningLoop

/-- C7: amended adjustment policy.  Every `record_feedback` call re-checks the
cumulative counters regardless of the rating just recorded: a call after which
the hallucination count is a positive multiple of 3 appends one
`retrieval_weight` adjustment with parameter `0.1 * (count / 3)` (integer
division), and a call after which the incorrect count is a positive multiple
of 5 appends one `prompt_patch` adjustment.  In a pure-hallucination sequence
this yields exactly `n / 3` retrieval adjustments with parameters 0.1, 0.2, …
(so none new at the 4th), but a recording of any rating while a counter rests
on its threshold also appends an adjustment. -/
theorem C7_adjustment_policy :
    (∀ (fs : List FeedbackRecord) (f : FeedbackRecord),
      (LearningLoop.recordSeq loopInit (fs ++ [f])).adjustments =
        (LearningLoop.recordSeq loopInit fs).adjustments ++
          (if 0 < countRating (fs ++ [f]) .HALLUCINATION ∧
              countRating (fs ++ [f]) .HALLUCINATION % 3 = 0 then
            [LearningLoop.retrievalAdjustment f (countRating (fs ++ [f]) .HALLUCINATION)]
          else []) ++
          (if 0 < countRating (fs ++ [f]) .INCORRECT ∧
              countRating (fs ++ [f]) .INCORRECT % 5 = 0 then
            [LearningLoop.promptAdjustment f (countRating (fs ++ [f]) .INCORRECT)]
          else [])) ∧
    (∀ n : ℕ,
      (LearningLoop.recordSeq loopInit (List.replicate n hallFb)).adjustments =
        (List.range (n / 3)).map fun j =>
          LearningLoop.retrievalAdjustment hallFb (3 * (j + 1))) := by
  have parta : ∀ (fs : List FeedbackRecord) (f : FeedbackRecord),
      (LearningLoop.recordSeq loopInit (fs ++ [f])).adjustments =
        (LearningLoop.recordSeq loopInit fs).adjustments ++
          (if 0 < countRating (fs ++ [f]) .HALLUCINATION ∧
              countRating (fs ++ [f]) .HALLUCINATION % 3 = 0 then
            [LearningLoop.retrievalAdjustment f (countRating (fs ++ [f]) .HALLUCINATION)]
          else []) ++
          (if 0 < countRating (fs ++ [f]) .INCORRECT ∧
              countRating (fs ++ [f]) .INCORRECT % 5 = 0 then
            [LearningLoop.promptAdjustment f (countRating (fs ++ [f]) .INCORRECT)]
          else []) := by
    intro fs f
    have hstep : LearningLoop.recordSeq loopInit (fs ++ [f]) =
        LearningLoop.record_feedback (LearningLoop.recordSeq loopInit fs) f := by
      simp [LearningLoop.recordSeq, List.foldl_append]
    have hH := (LearningLoop.recordSeq_counts (fs ++ [f])).1
    have hI := (LearningLoop.recordSeq_counts (fs ++ [f])).2
    rw [hstep] at hH hI
    rw [hstep, LearningLoop.record_feedback_adjustments, hH, hI]
  refine ⟨parta, ?_⟩
  intro n
  induction n with
  | zero => simp [LearningLoop.recordSeq, loopInit]
  | succ n ih =>
    rw [List.replicate_succ', parta, ih, countRating_append, countRating_append,
      countRating_replicate, countRating_replicate]
    have h1 : hallFb.rating = OutcomeRating.HALLUCINATION := rfl
    have h2 : ¬ hallFb.rating = OutcomeRating.INCORRECT := by
      rw [h1]
      exact fun h => nomatch h
    rw [if_pos h1, if_pos h1, if_neg h2, if_neg h2]
    by_cases h3 : (n + 1) % 3 = 0
    · have hdiv : (n + 1) / 3 = n / 3 + 1 := by omega
      have h30 : 3 * (n / 3 + 1) = n + 1 := by omega
      rw [hdiv, List.range_succ, List.map_append]
      simp [h3, h30]
    · have hdiv : (n + 1) / 3 = n / 3 := by omega
      simp [h3, hdiv]

/-- C7 counterexample: after five INCORRECT feedbacks the incorrect counter
rests on its threshold, so recording a 4th cumulative HALLUCINATION (the 9th
call) appends a new (`prompt_patch`) adjustment — the claim says the 4th
hallucination produces no new adjustment. -/
theorem C7_counterexample :
    (LearningLoop.recordSeq loopInit
        (List.replicate 5 incFb ++ List.replicate 4 hallFb)).adjustments =
      (LearningLoop.recordSeq loopInit
          (List.replicate 5 incFb ++ List.replicate 3 hallFb)).adjustments ++
        [LearningLoop.promptAdjustment hallFb 5] ∧
    countRating (List.replicate 5 incFb ++ List.replicate 4 hallFb)
        .HALLUCINATION = 4 := by
  constructor
  · rfl
  · rfl

/-- Stripping whitespace never lengthens a string. -/
theorem trim_length_le (l : Str) : (trim l).length ≤ l.length := by
  unfold trim
  rw [List.length_reverse]
  refine le_trans (List.dropWhile_sublist pyWs).length_le ?_
  rw [List.length_reverse]
  exact (List.dropWhile_sublist pyWs).length_le

namespace KnowledgeStore

/-- `splitStep` unfolded to a single conditional. -/
theorem splitStep_eq (m : ℕ) (acc : List Str × Str) (t : Str) :
    splitStep m acc t =
      if m < (if acc.2 ≠ [] then trim (acc.2 ++ (". ").data ++ t) else t).length ∧
          acc.2 ≠ [] then
        (acc.1 ++ [trim acc.2], t)
      else (acc.1, if acc.2 ≠ [] then trim (acc.2 ++ (". ").data ++ t) else t) := rfl

/-- Invariant of the `_split_text` accumulation loop: every emitted chunk is
within the budget or is the trimmed form of a single input sentence, and the
current buffer is within the budget or is a single input sentence. -/
theorem splitFold_invariant (m : ℕ) (S : List Str) (l : List Str)
    (acc : List Str × Str) (hl : ∀ x ∈ l, x ∈ S)
    (hchunks : ∀ c ∈ acc.1, c.length ≤ m ∨ ∃ s ∈ S, c = trim s)
    (hcur : acc.2.length ≤ m ∨ acc.2 ∈ S) :
    (∀ c ∈ (l.foldl (splitStep m) acc).1,
        c.length ≤ m ∨ ∃ s ∈ S, c = trim s) ∧
      ((l.foldl (splitStep m) acc).2.length ≤ m ∨
        (l.foldl (splitStep m) acc).2 ∈ S) := by
  induction l generalizing acc with
  | nil => exact ⟨hchunks, hcur⟩
  | cons t l ih =>
    rw [List.foldl_cons]
    have htS : t ∈ S := hl t (List.mem_cons_self t l)
    have hcov : ∀ x ∈ l, x ∈ S := fun x hx => hl x (List.mem_cons_of_mem _ hx)
    by_cases hc : acc.2 ≠ []
    · by_cases hlen : m < (trim (acc.2 ++ (". ").data ++ t)).length
      · have heq : splitStep m acc t = (acc.1 ++ [trim acc.2], t) := by
          rw [splitStep_eq]
          simp only [if_pos hc]
          rw [if_pos ⟨hlen, hc⟩]
        rw [heq]
        refine ih _ hcov ?_ (Or.inr htS)
        intro c hc2
        rcases List.mem_append.mp hc2 with hold | hnew
        · exact hchunks c hold
        · have hct : c = trim acc.2 := by simpa using hnew
          subst hct
          rcases hcur with hl2 | hm2
          · exact Or.inl (le_trans (trim_length_le acc.2) hl2)
          · exact Or.inr ⟨acc.2, hm2, rfl⟩
      · have heq : splitStep m acc t = (acc.1, trim (acc.2 ++ (". ").data ++ t)) := by
          rw [splitStep_eq]
          simp only [if_pos hc]
          rw [if_neg fun hand => hlen hand.1]
        rw [heq]
        exact ih _ hcov hchunks (Or.inl (Nat.le_of_not_lt hlen))
    · have heq : splitStep m acc t = (acc.1, t) := by
        rw [splitStep_eq]
        simp only [if_neg hc]
        rw [if_neg fun hand => hc hand.2]
      rw [heq]
      exact ih _ hcov hchunks (Or.inr htS)

set_option maxRecDepth 4000 in
/-- C5 counterexample: a 501-character block with no sentence separator is
longer than the budget, yet `_split_text` returns it whole as one segment of
length 501 > 500 — the claim says every produced segment has length at most
500. -/
theorem C5_counterexample :
    split_text (List.replicate 501 'a') 500 = [List.replicate 501 'a'] ∧
      500 < (List.replicate 501 'a').length := by
  constructor
  · rfl
  · simp

/-- C5 amended: a block within the 500-character budget is kept whole, and
every produced segment is within the budget, or is the trimmed form of one
input sentence (a `". "`-split piece whose own length exceeds the budget), or
is the whole block (the empty-accumulation fallback). -/
theorem C5_split_text_segments (text : Str) :
    (text.length ≤ 500 → split_text text 500 = [text]) ∧
    ∀ seg ∈ split_text text 500,
      seg.length ≤ 500 ∨
        (∃ s ∈ splitSeq (". ").data (replaceChar '\n' ' ' text), seg = trim s) ∨
        seg = text := by
  constructor
  · intro h
    rw [split_text, if_pos h]
  · intro seg hseg
    by_cases h : text.length ≤ 500
    · rw [split_text, if_pos h] at hseg
      have hst : seg = text := by simpa using hseg
      exact Or.inr (Or.inr hst)
    · simp only [split_text] at hseg
      rw [if_neg h] at hseg
      have hinv := splitFold_invariant 500
        (splitSeq (". ").data (replaceChar '\n' ' ' text))
        (splitSeq (". ").data (replaceChar '\n' ' ' text))
        ([], []) (fun x hx => hx) (fun c hc => absurd hc (List.not_mem_nil c))
        (Or.inl (Nat.zero_le 500))
      set acc := (splitSeq (". ").data (replaceChar '\n' ' ' text)).foldl
        (splitStep 500) ([], []) with hacc
      by_cases hfin : trim acc.2 ≠ []
      · rw [if_pos hfin] at hseg
        have hne : ¬ (acc.1 ++ [trim acc.2]) = [] := by simp
        rw [if_neg hne] at hseg
        rcases List.mem_append.mp hseg with hold | hnew
        · rcases hinv.1 seg hold with hlen | hmid
          · exact Or.inl hlen
          · exact Or.inr (Or.inl hmid)
        · have hct : seg = trim acc.2 := by simpa using hnew
          subst hct
          rcases hinv.2 with hlen | hmem
          · exact Or.inl (le_trans (trim_length_le acc.2) hlen)
          · exact Or.inr (Or.inl ⟨acc.2, hmem, rfl⟩)
      · rw [if_neg hfin] at hseg
        by_cases hch : acc.1 = []
        · rw [if_pos hch] at hseg
          exact Or.inr (Or.inr (by simpa using hseg))
        · rw [if_neg hch] at hseg
          rcases hinv.1 seg hseg with hlen | hmid
          · exact Or.inl hlen
          · exact Or.inr (Or.inl hmid)

end KnowledgeStore

/-- Looking a key up in a non-empty dict: head entry or tail lookup. -/
theorem dget?_cons {α : Type} (p : Str × α) (t : List (Str × α)) (k : Str) :
    dget? (p :: t) k = if p.1 = k then some p.2 else dget? t k := by
  by_cases hp : p.1 = k <;> simp [dget?, List.find?, hp]

/-- The in-place update map of `dset` yields the new value at its key,
provided the key occurs. -/
theorem dget?_mapset_self {α : Type} (t : List (Str × α)) (k : Str) (v : α)
    (h : t.any (fun q => q.1 = k) = true) :
    dget? (t.map fun q => if q.1 = k then (k, v) else q) k = some v := by
  induction t with
  | nil => cases h
  | cons q t ih =>
    by_cases hq : q.1 = k
    · simp [List.map_cons, if_pos hq, dget?_cons]
    · have ht : t.any (fun q => q.1 = k) = true := by
        rcases List.any_eq_true.mp h with ⟨x, hx, hpx⟩
        rcases List.mem_cons.mp hx with rfl | hxt
        · exact absurd (of_decide_eq_true hpx) hq
        · exact List.any_eq_true.mpr ⟨x, hxt, hpx⟩
      simp only [List.map_cons, if_neg hq]
      rw [dget?_cons, if_neg hq]
      exact ih ht

/-- The in-place update map of `dset` leaves lookups at other keys unchanged. -/
theorem dget?_mapset_other {α : Type} (t : List (Str × α)) (k k' : Str) (v : α)
    (hkk : k' ≠ k) :
    dget? (t.map fun q => if q.1 = k' then (k', v) else q) k = dget? t k := by
  induction t with
  | nil => rfl
  | cons q t ih =>
    by_cases hq : q.1 = k'
    · have hqk : ¬ q.1 = k := by rw [hq]; exact hkk
      simp only [List.map_cons, if_pos hq]
      rw [dget?_cons, dget?_cons, if_neg hkk, if_neg hqk, ih]
    · simp only [List.map_cons, if_neg hq]
      rw [dget?_cons, dget?_cons, ih]

/-- Appending an entry for an absent key makes its lookup the new value. -/
theorem dget?_append_self {α : Type} (d : List (Str × α)) (k : Str) (v : α)
    (h : ¬ d.any (fun q => q.1 = k) = true) : dget? (d ++ [(k, v)]) k = some v := by
  induction d with
  | nil => simp [dget?, List.find?]
  | cons q t ih =>
    have hq : ¬ q.1 = k := fun hqk => h (by simp [List.any_cons, hqk])
    have hnt : ¬ (t.any fun q => q.1 = k) = true := fun ht => h (by simp [List.any_cons, ht])
    rw [List.cons_append, dget?_cons, if_neg hq]
    exact ih hnt

/-- Appending a differently-keyed entry leaves a dict lookup unchanged. -/
theorem dget?_append_other {α : Type} (d : List (Str × α)) (k k' : Str) (v : α)
    (hkk : k' ≠ k) : dget? (d ++ [(k', v)]) k = dget? d k := by
  induction d with
  | nil => simp [dget?, List.find?, hkk]
  | cons q t ih => rw [List.cons_append, dget?_cons, dget?_cons, ih]

/-- `d[k] = v` makes the lookup at `k` return `v`. -/
theorem dget?_dset_self {α : Type} (d : List (Str × α)) (k : Str) (v : α) :
    dget? (dset d k v) k = some v := by
  rw [dset]
  by_cases h : d.any fun q => q.1 = k
  · rw [if_pos h]
    exact dget?_mapset_self d k v h
  · rw [if_neg h]
    exact dget?_append_self d k v h

/-- `d[k'] = v` leaves the lookup at a different key unchanged. -/
theorem dget?_dset_other {α : Type} (d : List (Str × α)) (k k' : Str) (v : α)
    (hkk : k' ≠ k) : dget? (dset d k' v) k = dget? d k := by
  rw [dset]
  by_cases h : d.any fun q => q.1 = k'
  · rw [if_pos h]
    exact dget?_mapset_other d k k' v hkk
  · rw [if_neg h]
    exact dget?_append_other d k k' v hkk

namespace KnowledgeStore

/-- `insertDesc` is a permutation of consing. -/
theorem insertDesc_perm (x : Chunk × ℚ) (l : List (Chunk × ℚ)) :
    (insertDesc x l).Perm (x :: l) := by
  induction l with
  | nil => exact List.Perm.refl _
  | cons y l ih =>
    rw [insertDesc]
    by_cases hle : y.2 ≤ x.2
    · rw [if_pos hle]
    · rw [if_neg hle]
      exact (ih.cons y).trans (List.Perm.swap x y l)

/-- `sortDesc` permutes its input. -/
theorem sortDesc_perm (l : List (Chunk × ℚ)) : (sortDesc l).Perm l := by
  induction l with
  | nil => exact List.Perm.refl _
  | cons x l ih =>
    exact (insertDesc_perm x (sortDesc l)).trans (ih.cons x)

/-- Membership transfers through `insertDesc`. -/
theorem mem_insertDesc {x y : Chunk × ℚ} {l : List (Chunk × ℚ)} :
    y ∈ insertDesc x l ↔ y = x ∨ y ∈ l := by
  rw [(insertDesc_perm x l).mem_iff, List.mem_cons]

/-- `insertDesc` preserves descending sortedness. -/
theorem insertDesc_sorted (x : Chunk × ℚ) (l : List (Chunk × ℚ))
    (hl : l.Pairwise fun a b => b.2 ≤ a.2) :
    (insertDesc x l).Pairwise fun a b => b.2 ≤ a.2 := by
  induction l with
  | nil => simp [insertDesc]
  | cons y l ih =>
    rw [insertDesc]
    rcases List.pairwise_cons.mp hl with ⟨hy, hl2⟩
    by_cases hle : y.2 ≤ x.2
    · rw [if_pos hle]
      refine List.pairwise_cons.mpr ⟨?_, hl⟩
      intro z hz
      rcases List.mem_cons.mp hz with rfl | hzl
      · exact hle
      · exact le_trans (hy z hzl) hle
    · rw [if_neg hle]
      refine List.pairwise_cons.mpr ⟨?_, ih hl2⟩
      intro z hz
      rcases mem_insertDesc.mp hz with rfl | hzl
      · exact le_of_lt (lt_of_not_le hle)
      · exact hy z hzl

/-- `sortDesc` sorts descending by score. -/
theorem sortDesc_sorted (l : List (Chunk × ℚ)) :
    (sortDesc l).Pairwise fun a b => b.2 ≤ a.2 := by
  induction l with
  | nil => simp [sortDesc]
  | cons x l ih => exact insertDesc_sorted x (sortDesc l) ih

/-- Stability of `insertDesc` seen through an equal-score filter: the skipped
prefix holds strictly greater scores, so the equal-score class keeps its
order with the inserted element in front. -/
theorem insertDesc_filter_eq (x : Chunk × ℚ) (l : List (Chunk × ℚ)) (s : ℚ) :
    (insertDesc x l).filter (fun p => p.2 = s) =
      if x.2 = s then x :: l.filter (fun p => p.2 = s)
      else l.filter (fun p => p.2 = s) := by
  induction l with
  | nil =>
    by_cases hx : x.2 = s <;> simp [insertDesc, hx]
  | cons y l ih =>
    rw [insertDesc]
    by_cases hle : y.2 ≤ x.2
    · rw [if_pos hle]
      by_cases hx : x.2 = s <;> simp [List.filter_cons, hx]
    · rw [if_neg hle]
      by_cases hx : x.2 = s
      · have hy : ¬ y.2 = s := by
          intro hys
          exact hle (le_of_eq (hx ▸ hys))
        simp only [List.filter_cons, ih, hx, if_pos]
        simp [hy, hx]
      · simp only [List.filter_cons, ih, hx, if_neg]
        by_cases hy : y.2 = s <;> simp [hy, hx]

/-- Stability of `sortDesc`: each equal-score class appears in input order. -/
theorem sortDesc_filter_eq (l : List (Chunk × ℚ)) (s : ℚ) :
    (sortDesc l).filter (fun p => p.2 = s) = l.filter (fun p => p.2 = s) := by
  induction l with
  | nil => rfl
  | cons x l ih =>
    show (insertDesc x (sortDesc l)).filter _ = _
    rw [insertDesc_filter_eq]
    by_cases hx : x.2 = s <;> simp [List.filter_cons, hx, ih]

/-- In a descending-sorted list, keeping positive scores commutes with
truncation: the positive entries form a prefix. -/
theorem filter_pos_take_of_sorted (l : List (Chunk × ℚ))
    (hl : l.Pairwise fun a b => b.2 ≤ a.2) (k : ℕ) :
    (l.take k).filter (fun p => 0 < p.2) = (l.filter (fun p => 0 < p.2)).take k := by
  induction l generalizing k with
  | nil => simp
  | cons x l ih =>
    rcases List.pairwise_cons.mp hl with ⟨hx, hl2⟩
    cases k with
    | zero => simp
    | succ k =>
      by_cases hp : 0 < x.2
      · rw [List.take_succ_cons]
        simp [List.filter_cons, hp, ih hl2, List.take_succ_cons]
      · have hnil : l.filter (fun p => 0 < p.2) = [] := by
          rw [List.filter_eq_nil_iff]
          intro a ha
          simp only [decide_eq_true_eq]
          exact fun h0 => hp (lt_of_lt_of_le h0 (hx a ha))
        have hnil2 : (l.take k).filter (fun p => 0 < p.2) = [] := by
          rw [List.filter_eq_nil_iff]
          intro a ha
          simp only [decide_eq_true_eq]
          exact fun h0 =>
            hp (lt_of_lt_of_le h0 (hx a (List.mem_of_mem_take ha)))
        rw [List.take_succ_cons]
        simp [List.filter_cons, hp, hnil, hnil2]

end KnowledgeStore

namespace KnowledgeStore

/-- A ranked-list pass of `_rrf_fuse` leaves scores of absent chunk ids
unchanged. -/
theorem rrfAddList_notin (k : ℚ) (L : List (Chunk × ℚ)) (cid : Str)
    (h : cid ∉ L.map fun p => p.1.chunk_id) :
    ∀ (acc : List (Str × ℚ) × List (Str × Chunk)) (i : ℕ),
      dget? (rrfAddList k acc i L).1 cid = dget? acc.1 cid := by
  induction L with
  | nil => intro acc i; rfl
  | cons c L ih =>
    intro acc i
    obtain ⟨sc, cm⟩ := acc
    obtain ⟨ch, sv⟩ := c
    rw [rrfAddList]
    have hne : ch.chunk_id ≠ cid := by
      intro he
      exact h (by simp [List.map_cons, he])
    have hrest : cid ∉ L.map fun p => p.1.chunk_id := fun hm =>
      h (by simp [List.map_cons, hm])
    rw [ih hrest _ _]
    exact dget?_dset_other sc cid ch.chunk_id _ hne

/-- A ranked-list pass of `_rrf_fuse` adds exactly `1 / (k + rank)` to the
score of the chunk ranked at 0-based index `j` (1-based rank `i + j` when the
enumeration starts at `i`), provided chunk ids are distinct within the list. -/
theorem rrfAddList_rank (k : ℚ) (L : List (Chunk × ℚ)) (cid : Str)
    (c : Chunk × ℚ) (hnd : (L.map fun p => p.1.chunk_id).Nodup) (j : ℕ)
    (hj : L[j]? = some c) (hcid : c.1.chunk_id = cid) :
    ∀ (acc : List (Str × ℚ) × List (Str × Chunk)) (i : ℕ),
      dget? (rrfAddList k acc i L).1 cid =
        some ((dget? acc.1 cid).getD 0 + 1 / (k + ((i + j : ℕ) : ℚ))) := by
  induction L generalizing j with
  | nil => cases hj
  | cons hd L ih =>
    intro acc i
    obtain ⟨sc, cm⟩ := acc
    obtain ⟨ch, sv⟩ := hd
    have hnd' := hnd
    simp only [List.map_cons] at hnd'
    have hnd2 := List.nodup_cons.mp hnd'
    rw [rrfAddList]
    cases j with
    | zero =>
      have hc : (ch, sv) = c := by
        have := hj
        rw [List.getElem?_cons_zero] at this
        exact Option.some.inj this
      have hch : ch.chunk_id = cid := by
        rw [show ch = c.1 from congrArg Prod.fst hc]
        exact hcid
      have hrest : cid ∉ L.map fun p => p.1.chunk_id := by
        rw [← hch]
        exact hnd2.1
      rw [rrfAddList_notin k L cid hrest _ _]
      rw [hch, dget?_dset_self]
      norm_num
    | succ j =>
      have hj2 : L[j]? = some c := by
        rw [List.getElem?_cons_succ] at hj
        exact hj
      have hmem : cid ∈ L.map fun p => p.1.chunk_id :=
        List.mem_map.mpr ⟨c, List.getElem?_mem hj2, hcid⟩
      have hch : ch.chunk_id ≠ cid := fun he => hnd2.1 (he ▸ hmem)
      rw [ih hnd2.2 j hj2 _ _]
      rw [dget?_dset_other sc cid ch.chunk_id _ hch]
      have harith : i + 1 + j = i + (j + 1) := by omega
      rw [harith]

/-- The `scores` dict of `_rrf_fuse` over two ranked lists is two passes over
their sorted forms. -/
theorem rrfState_pair (k : ℚ) (l1 l2 : List (Chunk × ℚ)) :
    rrfState k [l1, l2] =
      rrfAddList k (rrfAddList k ([], []) 1 (sortDesc l1)) 1 (sortDesc l2) := rfl

end KnowledgeStore

namespace KnowledgeStore

/-- Sorting preserves distinctness of chunk ids. -/
theorem sortDesc_nodup_ids (l : List (Chunk × ℚ))
    (h : (l.map fun p => p.1.chunk_id).Nodup) :
    ((sortDesc l).map fun p => p.1.chunk_id).Nodup :=
  (List.Perm.nodup_iff ((sortDesc_perm l).map _)).mpr h

/-- Projecting away a per-element computed score recovers the element list. -/
theorem map_fst_pair {α β : Type} (f : α → β) (l : List α) :
    (l.map fun c => (c, f c)).map Prod.fst = l := by
  induction l with
  | nil => rfl
  | cons x t ih => simp only [List.map_cons, ih]

/-- `_bm25_score` scores every chunk in store order. -/
theorem bm25_map_fst (log : ℚ → ℚ) (query : Str) (chunks : List Chunk) :
    (bm25_score log query chunks).map Prod.fst = chunks := by
  simp only [bm25_score]
  split_ifs <;> exact map_fst_pair _ _

/-- `_vector_score` scores every chunk in store order. -/
theorem vector_map_fst (query : Str) (chunks : List Chunk) :
    (vector_score query chunks).map Prod.fst = chunks := by
  induction chunks with
  | nil => rfl
  | cons c t ih =>
    simp only [vector_score] at ih ⊢
    rw [List.map_cons, List.map_cons]
    congr 1
    split <;> rfl

/-- `_bm25_score` of an empty store is empty. -/
theorem bm25_nil (log : ℚ → ℚ) (query : Str) : bm25_score log query [] = [] := by
  rw [bm25_score]
  split_ifs <;> rfl

/-- `scoredOf` of an empty store is empty for every strategy. -/
theorem scoredOf_nil (log : ℚ → ℚ) (query : Str) (strategy : Str) :
    scoredOf log [] query strategy = [] := by
  rw [scoredOf]
  split_ifs with h1 h2
  · exact bm25_nil log query
  · rfl
  · rw [bm25_nil]
    rfl

end KnowledgeStore

/-- C6: Reciprocal Rank Fusion.  The fused-score dict of `_rrf_fuse` (whose
values are exactly the scores of the returned fused list) assigns a chunk at
0-based position `i` of the descending BM25 ordering and `j` of the
descending vector ordering — 1-based ranks `i+1` and `j+1` — the score
`1/(60+(i+1)) + 1/(60+(j+1))`, and a chunk present in only one ranked list
receives only that list's term (chunk ids assumed distinct per list, as the
store guarantees). -/
theorem C6_rrf_fusion_score :
    (∀ ranked_lists : List (List (Chunk × ℚ)),
      (KnowledgeStore.rrf_fuse 60 ranked_lists).map Prod.snd =
        (KnowledgeStore.rrfState 60 ranked_lists).1.map Prod.snd) ∧
    (∀ (l1 l2 : List (Chunk × ℚ)) (c1 c2 : Chunk × ℚ) (i j : ℕ),
      (l1.map fun p => p.1.chunk_id).Nodup →
      (l2.map fun p => p.1.chunk_id).Nodup →
      (KnowledgeStore.sortDesc l1)[i]? = some c1 →
      (KnowledgeStore.sortDesc l2)[j]? = some c2 →
      c2.1.chunk_id = c1.1.chunk_id →
      dget? (KnowledgeStore.rrfState 60 [l1, l2]).1 c1.1.chunk_id =
        some (1 / (60 + ((i + 1 : ℕ) : ℚ)) + 1 / (60 + ((j + 1 : ℕ) : ℚ)))) ∧
    (∀ (l1 l2 : List (Chunk × ℚ)) (c1 : Chunk × ℚ) (i : ℕ),
      (l1.map fun p => p.1.chunk_id).Nodup →
      (KnowledgeStore.sortDesc l1)[i]? = some c1 →
      c1.1.chunk_id ∉ l2.map (fun p => p.1.chunk_id) →
      dget? (KnowledgeStore.rrfState 60 [l1, l2]).1 c1.1.chunk_id =
        some (1 / (60 + ((i + 1 : ℕ) : ℚ)))) ∧
    (∀ (l1 l2 : List (Chunk × ℚ)) (c2 : Chunk × ℚ) (j : ℕ),
      (l2.map fun p => p.1.chunk_id).Nodup →
      (KnowledgeStore.sortDesc l2)[j]? = some c2 →
      c2.1.chunk_id ∉ l1.map (fun p => p.1.chunk_id) →
      dget? (KnowledgeStore.rrfState 60 [l1, l2]).1 c2.1.chunk_id =
        some (1 / (60 + ((j + 1 : ℕ) : ℚ)))) := by
  refine ⟨?_, ?_, ?_, ?_⟩
  · intro ranked_lists
    simp [KnowledgeStore.rrf_fuse, List.map_map, Function.comp]
  · intro l1 l2 c1 c2 i j hn1 hn2 hi hj hid
    rw [KnowledgeStore.rrfState_pair]
    rw [KnowledgeStore.rrfAddList_rank 60 (KnowledgeStore.sortDesc l2)
      c1.1.chunk_id c2 (KnowledgeStore.sortDesc_nodup_ids l2 hn2) j hj hid _ _]
    rw [KnowledgeStore.rrfAddList_rank 60 (KnowledgeStore.sortDesc l1)
      c1.1.chunk_id c1 (KnowledgeStore.sortDesc_nodup_ids l1 hn1) i hi rfl _ _]
    simp [dget?, Nat.add_comm]
  · intro l1 l2 c1 i hn1 hi hnotin
    rw [KnowledgeStore.rrfState_pair]
    have hnotin2 : c1.1.chunk_id ∉
        (KnowledgeStore.sortDesc l2).map fun p => p.1.chunk_id := fun hm =>
      hnotin ((List.Perm.mem_iff ((KnowledgeStore.sortDesc_perm l2).map _)).mp hm)
    rw [KnowledgeStore.rrfAddList_notin 60 (KnowledgeStore.sortDesc l2)
      c1.1.chunk_id hnotin2 _ _]
    rw [KnowledgeStore.rrfAddList_rank 60 (KnowledgeStore.sortDesc l1)
      c1.1.chunk_id c1 (KnowledgeStore.sortDesc_nodup_ids l1 hn1) i hi rfl _ _]
    simp [dget?, Nat.add_comm]
  · intro l1 l2 c2 j hn2 hj hnotin
    rw [KnowledgeStore.rrfState_pair]
    rw [KnowledgeStore.rrfAddList_rank 60 (KnowledgeStore.sortDesc l2)
      c2.1.chunk_id c2 (KnowledgeStore.sortDesc_nodup_ids l2 hn2) j hj rfl _ _]
    have hnotin1 : c2.1.chunk_id ∉
        (KnowledgeStore.sortDesc l1).map fun p => p.1.chunk_id := fun hm =>
      hnotin ((List.Perm.mem_iff ((KnowledgeStore.sortDesc_perm l1).map _)).mp hm)
    rw [KnowledgeStore.rrfAddList_notin 60 (KnowledgeStore.sortDesc l1)
      c2.1.chunk_id hnotin1 _ _]
    simp [dget?, Nat.add_comm]

/-- C6 witness: with BM25 list ranking `c1` first and vector list ranking it
second, the fused score of `c1` is `1/61 + 1/62`. -/
theorem C6_witness :
    dget? (KnowledgeStore.rrfState 60
        [[(chunkRare1, 1), (chunkRare2, 0)],
          [(chunkRare2, 5), (chunkRare1, 2)]]).1 chunkRare1.chunk_id =
      some (1 / (60 + ((0 + 1 : ℕ) : ℚ)) + 1 / (60 + ((1 + 1 : ℕ) : ℚ))) :=
  C6_rrf_fusion_score.2.1 [(chunkRare1, 1), (chunkRare2, 0)]
    [(chunkRare2, 5), (chunkRare1, 2)] (chunkRare1, 1) (chunkRare1, 2) 0 1
    (by decide) (by decide) rfl rfl rfl

/-- C4: retrieval post-processing.  The code sorts descending, truncates to
`top_k`, then drops non-positive scores; because positives precede
non-positives in the sorted order this equals filtering to strictly positive
scores before truncating (the spec formulation), for every strategy.  For
the bm25 and vector strategies every equal-score class of the returned
ranking appears in store insertion order (its chunk projection is a sublist
of the store).  `retrieve` wraps exactly this ranking in result records. -/
theorem C4_retrieve_pipeline (log : ℚ → ℚ) (chunks : List Chunk) (query : Str)
    (k : ℕ) (strategy : Str) :
    KnowledgeStore.retrieveRanked log chunks query k strategy =
        ((KnowledgeStore.sortDesc
            (KnowledgeStore.scoredOf log chunks query strategy)).filter
          (fun p => 0 < p.2)).take k ∧
    (∀ s : ℚ, List.Sublist
        (((KnowledgeStore.retrieveRanked log chunks query k (("bm25").data)).filter
          (fun p => p.2 = s)).map Prod.fst) chunks) ∧
    (∀ s : ℚ, List.Sublist
        (((KnowledgeStore.retrieveRanked log chunks query k (("vector").data)).filter
          (fun p => p.2 = s)).map Prod.fst) chunks) ∧
    KnowledgeStore.retrieve log chunks query k strategy =
      { query := query
        results := (KnowledgeStore.retrieveRanked log chunks query k strategy).map
          KnowledgeStore.mkResult
        strategy := strategy } := by
  have hmain : ∀ strat : Str,
      KnowledgeStore.retrieveRanked log chunks query k strat =
        ((KnowledgeStore.sortDesc
            (KnowledgeStore.scoredOf log chunks query strat)).filter
          (fun p => 0 < p.2)).take k := by
    intro strat
    by_cases hc : chunks = []
    · subst hc
      rw [KnowledgeStore.retrieveRanked, if_pos rfl,
        KnowledgeStore.scoredOf_nil]
      simp [KnowledgeStore.sortDesc]
    · rw [KnowledgeStore.retrieveRanked, if_neg hc,
        KnowledgeStore.filter_pos_take_of_sorted _
          (KnowledgeStore.sortDesc_sorted _) k]
  have hties : ∀ (strat : Str),
      (KnowledgeStore.scoredOf log chunks query strat).map Prod.fst = chunks →
      ∀ s : ℚ, List.Sublist
        (((KnowledgeStore.retrieveRanked log chunks query k strat).filter
          (fun p => p.2 = s)).map Prod.fst) chunks := by
    intro strat hfst s
    by_cases hc : chunks = []
    · subst hc
      rw [KnowledgeStore.retrieveRanked, if_pos rfl]
      exact List.nil_sublist []
    · rw [KnowledgeStore.retrieveRanked, if_neg hc]
      have h1 : List.Sublist
          ((KnowledgeStore.sortDesc
            (KnowledgeStore.scoredOf log chunks query strat)).take k)
          (KnowledgeStore.sortDesc
            (KnowledgeStore.scoredOf log chunks query strat)) :=
        List.take_sublist _ _
      have h2 := (List.filter_sublist (p := fun p => 0 < p.2)
        ((KnowledgeStore.sortDesc
          (KnowledgeStore.scoredOf log chunks query strat)).take k)).trans h1
      have h3 := h2.filter (fun p => p.2 = s)
      rw [KnowledgeStore.sortDesc_filter_eq] at h3
      have h4 := h3.map Prod.fst
      have h5 := (List.filter_sublist (p := fun p => p.2 = s)
        (KnowledgeStore.scoredOf log chunks query strat)).map Prod.fst
      rw [hfst] at h5
      exact h4.trans h5
  refine ⟨hmain strategy, ?_, ?_, rfl⟩
  · refine hties (("bm25").data) ?_
    rw [KnowledgeStore.scoredOf, if_pos rfl]
    exact KnowledgeStore.bm25_map_fst log query chunks
  · refine hties (("vector").data) ?_
    rw [KnowledgeStore.scoredOf]
    rw [if_neg (by decide), if_pos rfl]
    exact KnowledgeStore.vector_map_fst query chunks

set_option maxRecDepth 100000 in
/-- C4 counterexample: under the hybrid strategy, a store `[c1, c2]` and a
query for which BM25 ranks `c2` first (both texts contain the term; the
shorter saturated text wins, using only that the real `math.log` is positive
on `6/5 > 1`) while the vector scores tie, fuses both chunks to the equal
score `1/61 + 1/62` — and the returned ranking lists `c2` before `c1`,
breaking the equal-score tie by fused-map insertion order (BM25 rank order),
not store insertion order. -/
theorem C4_counterexample :
    ∃ log : ℚ → ℚ, 0 < log (6 / 5) ∧
      [chunkRare1, chunkRare2].map Chunk.chunk_id =
        [("c1").data, ("c2").data] ∧
      (KnowledgeStore.retrieveRanked log [chunkRare1, chunkRare2]
          (("rare").data) 5 (("hybrid").data)).map
          (fun p => (p.1.chunk_id, p.2)) =
        [(("c2").data, 1 / 61 + 1 / 62), (("c1").data, 1 / 61 + 1 / 62)] := by
  refine ⟨logStub, ?_, rfl, ?_⟩
  · norm_num [logStub]
  · with_unfolding_all rfl

namespace KnowledgeStore

/-- C5 witness: a short block is kept whole, and that whole segment satisfies
the amended disjunction. -/
theorem C5_witness :
    split_text (("one. two").data) 500 = [("one. two").data] ∧
      ((("one. two").data).length ≤ 500 ∨
        (∃ s ∈ splitSeq (". ").data (replaceChar '\n' ' ' (("one. two").data)),
          ("one. two").data = trim s) ∨
        ("one. two").data = ("one. two").data) := by
  have h := C5_split_text_segments (("one. two").data)
  refine ⟨h.1 (by decide), h.2 (("one. two").data) ?_⟩
  rw [h.1 (by decide)]
  exact List.mem_singleton.mpr rfl

end KnowledgeStore

end Nanocortex
